import Mathlib

/-!
# lifebeat: the Life engine of `src/control.c`

A shallow embedding of the controller of the lifebeat firmware: a 16 x 16
toroidal, double-buffered cellular automaton whose rule thresholds are
edited by four encoders, which re-seeds itself with a random walk when it
dies out, and which drives a LED grid, four LED rings and one CV output.

Conventions of the embedding.

* The file-scope variables of `control.c` are the fields of `State`.
  `u8`/`u16` variables are natural numbers; where the C code can wrap
  (`++wave_count`, `++cv_update_count`, the `u16 index`) the reduction
  modulo `2^8` or `2^16` is written out.
* `states[x][y][g]` is `s.states x y g`.  Only the indices `x < 16`,
  `y < 16`, `g < 2` are memory of the array.
* `rand()` reads the next element of the stream `s.env.rand`; `s.drawn`
  counts the draws made so far.
* The calls into the hardware layer (`interface.h`) are recorded in
  `s.out`, most recent call first.
-/

namespace Lifebeat

/-! ## Constants -/

def MAXX : Nat := 16
def MAXY : Nat := 16
def SEED_CELL_COUNT : Nat := 16
def MAX_RESEED_DIV : Nat := 1
def MAX_WAVE_REPEAT : Nat := 32

/-! ## The hardware layer, as far as the controller sees it -/

/-- A call into the hardware layer, with the arguments as the controller
computes them (C `int`s). -/
inductive HwCall where
  | clear_all_grid_leds : HwCall
  | set_grid_led (x y level : Int) : HwCall
  | refresh_grid : HwCall
  | clear_all_arc_leds : HwCall
  | set_arc_led (ring pos level : Int) : HwCall
  | refresh_arc : HwCall
  | set_cv (channel level : Int) : HwCall
  deriving DecidableEq, Repr

/-- What the controller takes from its surroundings: the macro `MAX_LEVEL`
of `interface.h`, the size of the connected grid, and the results of the
successive calls of `rand()` (non-negative C `int`s). -/
structure Env where
  MAX_LEVEL : Nat
  grid_column_count : Nat
  grid_row_count : Nat
  rand : Nat → Nat

/-! ## The state -/

/-- The file-scope variables of `control.c`, the environment, and the
record of the calls made to the hardware. -/
structure State where
  live_min : Nat
  live_max : Nat
  birth_min : Nat
  birth_max : Nat
  reseed_div : Nat
  wave_repeat : Nat
  gen : Nat
  cv_update_count : Nat
  seed_count : Nat
  wave_count : Nat
  states : Nat → Nat → Nat → Nat
  seed_x : Nat → Nat
  seed_y : Nat → Nat
  env : Env
  drawn : Nat
  out : List HwCall

/-- The values of the static initialisers of `control.c`. -/
def init (env : Env) : State where
  live_min := 2
  live_max := 3
  birth_min := 2
  birth_max := 3
  reseed_div := MAX_RESEED_DIV
  wave_repeat := MAX_WAVE_REPEAT
  gen := 0
  cv_update_count := 0
  seed_count := 0
  wave_count := 0
  states := fun _ _ _ => 0
  seed_x := fun _ => 0
  seed_y := fun _ => 0
  env := env
  drawn := 0
  out := []

/-! ## Loops and array writes -/

/-- The loop `for (int i = 0; i < n; i++) s = body i s`. -/
def forUpTo {σ : Type} : Nat → (Nat → σ → σ) → σ → σ
  | 0, _, s => s
  | n + 1, body, s => body n (forUpTo n body s)

/-- The loop `for (int i = lo; i < hi; i++) s = body i s` over C `int`s. -/
def forFromTo {σ : Type} (lo hi : Int) (body : Int → σ → σ) (s : σ) : σ :=
  forUpTo (hi - lo).toNat (fun k => body (lo + (k : Int))) s

/-- The assignment `a[i] = v`. -/
def write1 (a : Nat → Nat) (i v : Nat) : Nat → Nat :=
  fun j => if j = i then v else a j

/-- The assignment `a[x][y][g] = v`. -/
def write3 (a : Nat → Nat → Nat → Nat) (x y g v : Nat) : Nat → Nat → Nat → Nat :=
  fun x' y' g' => if x' = x ∧ y' = y ∧ g' = g then v else a x' y' g'

/-- The C value of `v > 0`: 1 or 0. -/
def gt0 (v : Nat) : Nat := if 0 < v then 1 else 0

/-- Records one call into the hardware layer. -/
def emit (c : HwCall) (s : State) : State := { s with out := c :: s.out }

/-- The call `rand()`: the next draw, and the state after it. -/
def rand (s : State) : Nat × State :=
  (s.env.rand s.drawn, { s with drawn := s.drawn + 1 })

/-! ## The functions of `control.c` -/

/-- The function `neighbours(x, y, gen)`: the sum of the eight comparisons
`> 0`. -/
def neighbours (s : State) (x y gen : Nat) : Nat :=
  gt0 (s.states ((x + MAXX - 1) % MAXX) ((y + MAXY - 1) % MAXY) gen) +
  gt0 (s.states ((x + 0) % MAXX) ((y + MAXY - 1) % MAXY) gen) +
  gt0 (s.states ((x + 1) % MAXX) ((y + MAXY - 1) % MAXY) gen) +
  gt0 (s.states ((x + MAXX - 1) % MAXX) ((y + 0) % MAXY) gen) +
  gt0 (s.states ((x + 1) % MAXX) ((y + 0) % MAXY) gen) +
  gt0 (s.states ((x + MAXX - 1) % MAXX) ((y + 1) % MAXY) gen) +
  gt0 (s.states ((x + 0) % MAXX) ((y + 1) % MAXY) gen) +
  gt0 (s.states ((x + 1) % MAXX) ((y + 1) % MAXY) gen)

/-- One step of the walk of `seed()`, the body of its first loop:
`seed_x[i] = (seed_x[i-1] + (rand() & 1 ? 1 : MAXX - 1)) % MAXX` and the
same for `seed_y`. -/
def seed_step (i : Nat) (s : State) : State :=
  let (r1, s) := rand s
  let vx := ((s.seed_x (i - 1) + (if r1 % 2 ≠ 0 then 1 else MAXX - 1)) % MAXX) % 256
  let s := { s with seed_x := write1 s.seed_x i vx }
  let (r2, s) := rand s
  let vy := ((s.seed_y (i - 1) + (if r2 % 2 ≠ 0 then 1 else MAXY - 1)) % MAXY) % 256
  { s with seed_y := write1 s.seed_y i vy }

/-- The body of the second loop of `seed()`:
`states[seed_x[i]][seed_y[i]][gen] = 1`. -/
def seed_mark (i : Nat) (s : State) : State :=
  { s with states := write3 s.states (s.seed_x i) (s.seed_y i) s.gen 1 }

/-- The first half of `seed()`: the random walk is drawn. -/
def seed_walk (s : State) : State :=
  let (r1, s) := rand s
  let s := { s with seed_x := write1 s.seed_x 0 ((r1 % MAXX) % 256) }
  let (r2, s) := rand s
  let s := { s with seed_y := write1 s.seed_y 0 ((r2 % MAXY) % 256) }
  let s := forUpTo (SEED_CELL_COUNT - 1) (fun k s => seed_step (k + 1) s) s
  { s with seed_count := 0 }

/-- The function `seed()`. -/
def seed (s : State) : State :=
  forUpTo SEED_CELL_COUNT seed_mark (seed_walk s)

/-- The body of the cell loop of `visualize()` for the grid. -/
def visualize_grid_cell (x y : Nat) (s : State) : State :=
  emit (.set_grid_led x y (if s.states x y s.gen ≠ 0 then 8 else 0)) s

/-- The body of the cell loop of `visualize()` for the rings; `index` is
a `u16`. -/
def visualize_arc_cell (x y : Nat) (s : State) : State :=
  let index := (x * y) % 65536
  emit (.set_arc_led ((index >>> 6 : Nat) : Int) ((index &&& 0b111111 : Nat) : Int)
    (if s.states x y s.gen ≠ 0 then 4 else 0)) s

/-- The first block of `visualize()`: the LED grid. -/
def visualize_grid (s : State) : State :=
  let s := emit .clear_all_grid_leds s
  let maxx := min MAXX s.env.grid_column_count
  let maxy := min MAXY s.env.grid_row_count
  let s := forUpTo maxx (fun x s => forUpTo maxy (fun y s => visualize_grid_cell x y s) s) s
  emit .refresh_grid s

/-- The cell pass of `visualize()` over the rings. -/
def visualize_arc_cells (s : State) : State :=
  let s := emit .clear_all_arc_leds s
  forUpTo 16 (fun x s => forUpTo 16 (fun y s => visualize_arc_cell x y s) s) s

/-- One indicator line of `visualize()`:
`if (guard) for (int i = (value - 1) * scale; i < value * scale; i++) set_arc_led(ring, i, 15);`
in `int` arithmetic. -/
def visualize_indicator (ring : Int) (guard value scale : Nat) (s : State) : State :=
  if guard ≠ 0 then
    forFromTo (((value : Int) - 1) * (scale : Int)) ((value : Int) * (scale : Int))
      (fun i s => emit (.set_arc_led ring i 15) s) s
  else s

/-- The four indicator lines of `visualize()`; the fourth is guarded by
`birth_max` and ranges over `wave_repeat`, as in the source. -/
def visualize_indicators (s : State) : State :=
  let s := visualize_indicator 0 s.live_max s.live_max 8 s
  let s := visualize_indicator 1 s.birth_min s.birth_min 8 s
  let s := visualize_indicator 2 s.birth_max s.birth_max 8 s
  visualize_indicator 3 s.birth_max s.wave_repeat (64 / MAX_WAVE_REPEAT) s

/-- The function `visualize()`. -/
def visualize (s : State) : State :=
  emit .refresh_arc (visualize_indicators (visualize_arc_cells (visualize_grid s)))

/-- The body of the cell loop of `next_gen()`; the second component is the
local variable `count`. -/
def next_gen_cell (nextgen x y : Nat) (p : State × Nat) : State × Nat :=
  let s := p.1
  let n := neighbours s x y s.gen
  if s.states x y s.gen ≠ 0 ∧ (n ≥ s.live_min ∧ n ≤ s.live_max) then
    ({ s with states := write3 s.states x y nextgen 1 }, p.2 + 1)
  else if ¬ (s.states x y s.gen ≠ 0) ∧ (n ≥ s.birth_min ∧ n ≤ s.birth_max) then
    ({ s with states := write3 s.states x y nextgen 1 }, p.2 + 1)
  else
    ({ s with states := write3 s.states x y nextgen 0 }, p.2)

/-- The two nested loops of `next_gen()`, started with `count = 0`. -/
def next_gen_loop (s : State) : State × Nat :=
  let nextgen := if s.gen ≠ 0 then 0 else 1
  forUpTo MAXX (fun x p => forUpTo MAXY (fun y p => next_gen_cell nextgen x y p) p) (s, 0)

/-- The function `next_gen()`. -/
def next_gen (s : State) : State :=
  let nextgen := if s.gen ≠ 0 then 0 else 1
  let p := next_gen_loop s
  let s := { p.1 with gen := nextgen }
  let s := if p.2 = 0 then seed s else s
  visualize s

/-- The body of the loop of `update_cv()`; the second component is the
local `u16 total`. -/
def update_cv_cell (x : Nat) (p : State × Nat) : State × Nat :=
  (p.1, (p.2 + p.1.states x p.1.cv_update_count p.1.gen) % 65536)

/-- The function `update_cv()`.  The level is computed in `int`; with every
cell 0 or 1 it is at most `MAX_LEVEL`. -/
def update_cv (s : State) : State :=
  let c := (s.cv_update_count + 1) % 256
  let s := { s with cv_update_count := if c ≥ MAXY then 0 else c }
  let p := forUpTo MAXX update_cv_cell (s, 0)
  emit (.set_cv 0 (((s.env.MAX_LEVEL / MAXX) * p.2 : Nat) : Int)) p.1

/-- The function `play()`. -/
def play (s : State) : State :=
  let s :=
    if s.cv_update_count = 0 then
      let s := { s with wave_count := (s.wave_count + 1) % 256 }
      if s.wave_count ≥ s.wave_repeat then
        { next_gen s with wave_count := 0 }
      else s
    else s
  update_cv s

/-- The function `grid_press(x, y, pressed)`.  The arguments are the bytes of the event;
a write outside `states[16][16][2]` has no defined result. -/
def grid_press (s : State) (x y pressed : Nat) : Option State :=
  if pressed ≠ 0 then
    if x < MAXX ∧ y < MAXY ∧ s.gen < 2 then
      some (visualize { s with states := write3 s.states x y s.gen 1 })
    else none
  else some (visualize s)

/-- The function `arc_turn(enc, dir)`. -/
def arc_turn (s : State) (enc dir : Nat) : State :=
  let s :=
    if enc = 0 then
      if dir ≠ 0 ∧ s.live_max < 8 then { s with live_max := s.live_max + 1 }
      else if dir = 0 ∧ s.live_max > 0 then { s with live_max := s.live_max - 1 }
      else s
    else if enc = 1 then
      if dir ≠ 0 ∧ s.birth_min < 8 then { s with birth_min := s.birth_min + 1 }
      else if dir = 0 ∧ s.birth_min > 0 then { s with birth_min := s.birth_min - 1 }
      else s
    else if enc = 2 then
      if dir ≠ 0 ∧ s.birth_max < 8 then { s with birth_max := s.birth_max + 1 }
      else if dir = 0 ∧ s.birth_max > 0 then { s with birth_max := s.birth_max - 1 }
      else s
    else if enc = 3 then
      let s :=
        if dir ≠ 0 ∧ s.wave_repeat < MAX_WAVE_REPEAT then { s with wave_repeat := s.wave_repeat + 1 }
        else if dir = 0 ∧ s.wave_repeat > 0 then { s with wave_repeat := s.wave_repeat - 1 }
        else s
      seed s
    else s
  visualize s

/-! ## Notions used to state the properties -/

/-- Modelled from the spec: the level shown by LED `pos` of ring `ring`
after the recorded calls (most recent first).  `set_arc_led` and
`clear_all_arc_leds` are declared in `interface.h`, which is not part of the
sources; by the specification `set_arc_led(ring, position, level)` sets that
one LED and `clear_all_arc_leds()` turns every ring LED off. -/
def arc_led : List HwCall → Int → Int → Int
  | [], _, _ => 0
  | .clear_all_arc_leds :: _, _, _ => 0
  | .set_arc_led r p l :: rest, ring, pos =>
      if r = ring ∧ p = pos then l else arc_led rest ring pos
  | .clear_all_grid_leds :: rest, ring, pos => arc_led rest ring pos
  | .set_grid_led _ _ _ :: rest, ring, pos => arc_led rest ring pos
  | .refresh_grid :: rest, ring, pos => arc_led rest ring pos
  | .refresh_arc :: rest, ring, pos => arc_led rest ring pos
  | .set_cv _ _ :: rest, ring, pos => arc_led rest ring pos

/-- One step of the walk of `seed()` from point `p`, with the two draws
`ra` and `rb`. -/
def walk_next (p : Nat × Nat) (ra rb : Nat) : Nat × Nat :=
  ((p.1 + (if ra % 2 ≠ 0 then 1 else 15)) % 16, (p.2 + (if rb % 2 ≠ 0 then 1 else 15)) % 16)

/-- The walk of `seed()` as a function of the draws `r d`, `r (d + 1)`, ...:
point `i` of the walk. -/
def walk (r : Nat → Nat) (d : Nat) : Nat → Nat × Nat
  | 0 => (r d % 16, r (d + 1) % 16)
  | i + 1 => walk_next (walk r d i) (r (d + 2 * i + 2)) (r (d + 2 * i + 3))

/-- Cell `(a, b)` is one of the first `n` points `(sx i, sy i)`. -/
def seed_hit (sx sy : Nat → Nat) (n a b : Nat) : Bool :=
  (List.range n).any (fun i => decide (a = sx i ∧ b = sy i))

/-- The state after the first two draws and `k` steps of the walk of
`seed()`, in closed form. -/
def walked (s : State) (k : Nat) : State :=
  { s with
    seed_x := fun j => if j ≤ k then (walk s.env.rand s.drawn j).1 else s.seed_x j
    seed_y := fun j => if j ≤ k then (walk s.env.rand s.drawn j).2 else s.seed_y j
    drawn := s.drawn + 2 * k + 2 }

/-- The state after `seed()`, in closed form. -/
def seeded (s : State) : State :=
  { walked s 15 with
    seed_count := 0
    states := fun a b g =>
      if g = s.gen ∧ seed_hit (walked s 15).seed_x (walked s 15).seed_y 16 a b = true then 1
      else s.states a b g }

/-- The four thresholds are those of Conway's rule B3/S23. -/
def conway (s : State) : Prop :=
  s.live_min = 2 ∧ s.live_max = 3 ∧ s.birth_min = 3 ∧ s.birth_max = 3

instance (s : State) : Decidable (conway s) := by
  unfold conway
  infer_instance

/-- Everything of the state but the record of hardware calls. -/
def frame (s : State) : State := { s with out := [] }

/-- Cell `(x, y)` of buffer `g` is alive: its stored value is not 0. -/
def alive (s : State) (x y g : Nat) : Bool := decide (s.states x y g ≠ 0)

/-- The eight offsets of the Moore neighbourhood. -/
def moore_offsets : List (Int × Int) :=
  [(-1, -1), (0, -1), (1, -1), (-1, 0), (1, 0), (-1, 1), (0, 1), (1, 1)]

/-- The neighbour count as the specification words it: the number of
offsets `(dx, dy)` whose cell `((x + dx) mod 16, (y + dy) mod 16)` of buffer
`g` is alive. -/
def moore_count (s : State) (x y g : Nat) : Nat :=
  moore_offsets.countP
    (fun d => alive s (((x : Int) + d.1) % 16).toNat (((y : Int) + d.2) % 16).toNat g)

/-- The eight cells around `(0, 0)` on the torus. -/
def around_origin : List (Nat × Nat) :=
  [(15, 15), (0, 15), (1, 15), (15, 0), (1, 0), (15, 1), (0, 1), (1, 1)]

/-- The condition under which `next_gen()` stores 1 for cell `(x, y)`: the
disjunction of the conditions of its two `if`s, read in state `s`. -/
def rule (s : State) (x y : Nat) : Bool :=
  decide ((s.states x y s.gen ≠ 0 ∧
      (neighbours s x y s.gen ≥ s.live_min ∧ neighbours s x y s.gen ≤ s.live_max)) ∨
    (¬ (s.states x y s.gen ≠ 0) ∧
      (neighbours s x y s.gen ≥ s.birth_min ∧ neighbours s x y s.gen ≤ s.birth_max)))

/-- The value of `count` after the loops of `next_gen()`: the number of
cells for which `rule` holds. -/
def rule_count (s : State) : Nat :=
  ((List.range 16).map (fun x => (List.range 16).countP (fun y => rule s x y))).sum

/-- The buffer index that `next_gen()` writes: `gen ? 0 : 1`. -/
def other (g : Nat) : Nat := if g ≠ 0 then 0 else 1

/-- The array `states` after the loops of `next_gen()`. -/
def next_states (s : State) : Nat → Nat → Nat → Nat :=
  fun a b c =>
    if a < 16 ∧ b < 16 ∧ c = other s.gen then (if rule s a b then 1 else 0)
    else s.states a b c

/-- The state after the loops of `next_gen()` and the assignment
`gen = nextgen`, in closed form. -/
def stepped (s : State) : State :=
  { s with states := next_states s, gen := other s.gen }

/-- The rule as the specification words it, read in the old active buffer:
the cell is alive and `live_min <= n <= live_max`, or it is dead and
`birth_min <= n <= birth_max`, with `n` the number of live Moore neighbours
on the torus. -/
def rule_spec (s : State) (x y : Nat) : Prop :=
  (alive s x y s.gen = true ∧
    s.live_min ≤ moore_count s x y s.gen ∧ moore_count s x y s.gen ≤ s.live_max) ∨
  (alive s x y s.gen = false ∧
    s.birth_min ≤ moore_count s x y s.gen ∧ moore_count s x y s.gen ≤ s.birth_max)

/-- The active buffer of `s` as a grid of booleans. -/
def grid_of (s : State) : Nat → Nat → Bool := fun x y => alive s x y s.gen

/-- The number 1 for `true`, 0 for `false`. -/
def b2n (b : Bool) : Nat := if b then 1 else 0

/-- The sum of `neighbours`, on a grid of booleans. -/
def ncount (A : Nat → Nat → Bool) (x y : Nat) : Nat :=
  b2n (A ((x + 16 - 1) % 16) ((y + 16 - 1) % 16)) +
  b2n (A ((x + 0) % 16) ((y + 16 - 1) % 16)) +
  b2n (A ((x + 1) % 16) ((y + 16 - 1) % 16)) +
  b2n (A ((x + 16 - 1) % 16) ((y + 0) % 16)) +
  b2n (A ((x + 1) % 16) ((y + 0) % 16)) +
  b2n (A ((x + 16 - 1) % 16) ((y + 1) % 16)) +
  b2n (A ((x + 0) % 16) ((y + 1) % 16)) +
  b2n (A ((x + 1) % 16) ((y + 1) % 16))

/-- The condition `rule`, on a grid of booleans. -/
def life_rule (lmin lmax bmin bmax : Nat) (A : Nat → Nat → Bool) (x y : Nat) : Bool :=
  (A x y && decide (lmin ≤ ncount A x y) && decide (ncount A x y ≤ lmax)) ||
  (!A x y && decide (bmin ≤ ncount A x y) && decide (ncount A x y ≤ bmax))

/-- The grid `A` moved by `(dx, dy)` on the torus. -/
def shift_grid (A : Nat → Nat → Bool) (dx dy : Nat) : Nat → Nat → Bool :=
  fun x y => A ((x + 16 - dx) % 16) ((y + 16 - dy) % 16)

/-- The cells of a pattern placed at offset `(ox, oy)` modulo 16. -/
def placed (cells : List (Nat × Nat)) (ox oy : Nat) : List (Nat × Nat) :=
  cells.map (fun c => ((c.1 + ox) % 16, (c.2 + oy) % 16))

/-- The grid whose live cells are those of the placed pattern. -/
def pattern_grid (cells : List (Nat × Nat)) (ox oy : Nat) : Nat → Nat → Bool :=
  fun x y => decide ((x, y) ∈ placed cells ox oy)

/-- The glider of the specification and its next three phases. -/
def glider : List (Nat × Nat) := [(1, 0), (2, 1), (0, 2), (1, 2), (2, 2)]
def glider1 : List (Nat × Nat) := [(0, 1), (2, 1), (1, 2), (2, 2), (1, 3)]
def glider2 : List (Nat × Nat) := [(2, 1), (0, 2), (2, 2), (1, 3), (2, 3)]
def glider3 : List (Nat × Nat) := [(1, 1), (2, 2), (3, 2), (1, 3), (2, 3)]

/-- The glider moved by one cell on both axes. -/
def glider4 : List (Nat × Nat) := [(2, 1), (3, 2), (1, 3), (2, 3), (3, 3)]

/-- The cells of the grid. -/
def all_cells : List (Nat × Nat) := List.product (List.range 16) (List.range 16)

/-- The number of live cells of buffer `g`. -/
def live_count (s : State) (g : Nat) : Nat :=
  all_cells.countP (fun c => alive s c.1 c.2 g)

/-- A small environment for the concrete instances: a 16 x 16 grid,
`MAX_LEVEL = 65535`, and every draw of `rand()` equal to 0. -/
def env0 : Env := ⟨65535, 16, 16, fun _ => 0⟩

/-- The state with the given cells alive in buffer 0 and everything else as
at start-up. -/
def with_cells (cells : List (Nat × Nat)) (e : Env) : State :=
  { init e with states := fun x y g => if g = 0 ∧ (x, y) ∈ cells then 1 else 0 }

/-- Three cells in a column of buffer 0 (a blinker), start-up parameters. -/
def blinker (e : Env) : State := with_cells [(1, 0), (1, 1), (1, 2)] e

/-- The blinker with both rule ranges empty: `live_min = 2 > live_max = 1`
and `birth_min = 2 > birth_max = 1`. -/
def blinker_no_rule (e : Env) : State := { blinker e with live_max := 1, birth_max := 1 }

/-- The glider at offset `(3, 5)` in buffer 0, with Conway's thresholds. -/
def glider_state (e : Env) : State :=
  { with_cells (placed glider 3 5) e with birth_min := 3 }

/-- A single live cell at `(0, 0)` of buffer 0, with Conway's thresholds. -/
def lonely (e : Env) : State := { with_cells [(0, 0)] e with birth_min := 3 }

/-- An environment whose draws make the walk of `seed()` go back and forth
between `(0, 0)` and `(1, 1)`. -/
def env_alt : Env := ⟨65535, 16, 16, fun k => (k / 2) % 2⟩

/-- The start-up state with `birth_min` turned down to 0. -/
def init_birth0 (e : Env) : State := { init e with birth_min := 0 }

/-- Exactly the eight cells around `(0, 0)` alive in buffer 0. -/
def ring_state (e : Env) : State := with_cells around_origin e

/-- The value of `total` after `n` iterations of the loop of `update_cv()`
over row `y` of buffer `g`. -/
def row_sum (st : Nat → Nat → Nat → Nat) (y g : Nat) : Nat → Nat
  | 0 => 0
  | n + 1 => (row_sum st y g n + st n y g) % 65536

/-- The number of live cells in row `y` of buffer `g`. -/
def row_live (s : State) (y g : Nat) : Nat :=
  (List.range 16).countP (fun x => alive s x y g)

/-- The row counter after the first statement of `update_cv()`. -/
def next_row (c : Nat) : Nat := if (c + 1) % 256 ≥ MAXY then 0 else (c + 1) % 256

/-- The events that `process_event` acts upon, with the bytes of their data. -/
inductive Event where
  | tick : Event
  | key (x y pressed : Nat) : Event
  | turn (enc dir : Nat) : Event

/-- The dispatcher `process_event`: `TIMED_EVENT` calls `play()`, `GRID_KEY_PRESSED` calls
`grid_press`, `ARC_ENCODER_COARSE` calls `arc_turn`. -/
def process_event (s : State) : Event → Option State
  | .tick => some (play s)
  | .key x y pressed => grid_press s x y pressed
  | .turn enc dir => some (arc_turn s enc dir)

/-- The states that the controller reaches from start-up in environment `e`
by events whose result is defined. -/
inductive Reachable (e : Env) : State → Prop where
  | start : Reachable e (init e)
  | step (s t : State) (ev : Event) : Reachable e s → process_event s ev = some t →
      Reachable e t

/-- The bounds that hold in every reachable state. -/
structure Inv (s : State) : Prop where
  gen_lt : s.gen < 2
  cv_lt : s.cv_update_count < 16
  wave_lt : s.wave_count < 32
  live_max_le : s.live_max ≤ 8
  birth_min_le : s.birth_min ≤ 8
  birth_max_le : s.birth_max ≤ 8
  wave_repeat_le : s.wave_repeat ≤ MAX_WAVE_REPEAT
  cells_le : ∀ x y g, s.states x y g ≤ 1

/-- The timing and threshold variables, which `next_gen()`, `seed()` and
`visualize()` do not write. -/
def controls (s : State) : Nat × Nat × Nat × Nat × Nat × Nat × Nat × Nat × Env :=
  (s.live_min, s.live_max, s.birth_min, s.birth_max, s.reseed_div, s.wave_repeat,
    s.cv_update_count, s.wave_count, s.env)

/-- The parameter that encoder `enc` addresses: `live_max`, `birth_min`,
`birth_max`, `wave_repeat` for `enc` = 0, 1, 2, 3. -/
def param (enc : Nat) (s : State) : Nat :=
  if enc = 0 then s.live_max else if enc = 1 then s.birth_min
  else if enc = 2 then s.birth_max else s.wave_repeat

/-- The upper bound against which `arc_turn` compares that parameter. -/
def bound (enc : Nat) : Nat := if enc = 3 then MAX_WAVE_REPEAT else 8

/-- The state after a sequence of calls `arc_turn(enc, dir)` from start-up. -/
def turned (e : Env) (turns : List (Nat × Nat)) : State :=
  turns.foldl (fun s t => arc_turn s t.1 t.2) (init e)

/-- The guards of `play()` under which it calls `next_gen()`: the row
counter is 0 and the incremented `wave_count` has reached `wave_repeat`. -/
def play_advances (s : State) : Prop :=
  s.cv_update_count = 0 ∧ (s.wave_count + 1) % 256 ≥ s.wave_repeat

instance (s : State) : Decidable (play_advances s) := by
  unfold play_advances
  infer_instance

/-- The state after 32 decrements of encoder 3 from start-up:
`wave_repeat` is 0. -/
def turned_down (e : Env) : State := turned e (List.replicate 32 (3, 0))

/-- The state after 31 decrements of encoder 3 from start-up:
`wave_repeat` is 1. -/
def turned_to_one (e : Env) : State := turned e (List.replicate 31 (3, 0))

/-- The result of a sequence of events, as long as each is defined. -/
def run (s : State) : List Event → Option State
  | [] => some s
  | ev :: evs => (process_event s ev).bind (fun t => run t evs)

/-- Eight key presses in row 1. -/
def half_row_keys : List Event :=
  [.key 0 1 1, .key 2 1 1, .key 4 1 1, .key 6 1 1, .key 8 1 1, .key 10 1 1, .key 12 1 1,
    .key 14 1 1]

/-- The state after the eight key presses from start-up. -/
def half_row_pressed : State := (run (init env0) half_row_keys).getD (init env0)

/-- The state after three decrements of encoder 2 from start-up:
`birth_max` is 0 and `wave_repeat` is still 32. -/
def no_birth (e : Env) : State := turned e [(2, 0), (2, 0), (2, 0)]

/-- The last element of a list that satisfies `p`, if any. -/
def last_match {α : Type} (p : α → Bool) : List α → Option α
  | [] => none
  | c :: cs =>
      match last_match p cs with
      | some d => some d
      | none => if p c then some c else none

/-- The last cell `(x, y)`, in the order of the loops of `visualize()` (`x`
outer, `y` inner, both ascending), whose product `x * y` is `n`. -/
def ring_cell (n : Nat) : Option (Nat × Nat) :=
  last_match (fun c => decide (c.1 * c.2 = n)) all_cells

/-- The call that the ring cell loop of `visualize()` makes for cell `c`, with
`states` and `gen` as given. -/
def ring_call (st : Nat → Nat → Nat → Nat) (g : Nat) (c : Nat × Nat) : HwCall :=
  .set_arc_led ((((c.1 * c.2) % 65536) >>> 6 : Nat) : Int)
    ((((c.1 * c.2) % 65536) &&& 0b111111 : Nat) : Int) (if st c.1 c.2 g ≠ 0 then 4 else 0)

/-- The cell from which cell `c` takes its value when a grid is moved by
`(dx, dy)`. -/
def shift_cell (dx dy : Nat) (c : Nat × Nat) : Nat × Nat :=
  ((c.1 + 16 - dx) % 16, (c.2 + 16 - dy) % 16)

/-- The glider at offset `(4, 7)` in buffer 0, with Conway's thresholds:
`glider_state` moved by `(1, 2)`. -/
def glider_moved (e : Env) : State :=
  { with_cells (placed glider 4 7) e with birth_min := 3 }

/-- The first 16 entries of the seed arrays are coordinates of the grid. -/
def SeedInv (s : State) : Prop :=
  ∀ i, i < 16 → s.seed_x i < 16 ∧ s.seed_y i < 16

/-! ## The neighbour count -/

theorem gt0_eq (v : Nat) : gt0 v = if v ≠ 0 then 1 else 0 := by
  unfold gt0
  by_cases h : v = 0 <;> simp [h, Nat.pos_iff_ne_zero]

theorem neighbours_eq_moore_count (s : State) (x y g : Nat) (hx : x < 16) (hy : y < 16) :
    neighbours s x y g = moore_count s x y g := by
  have e1 : (((x : Int) + -1) % 16).toNat = (x + 16 - 1) % 16 := by omega
  have e2 : (((x : Int) + 0) % 16).toNat = (x + 0) % 16 := by omega
  have e3 : (((x : Int) + 1) % 16).toNat = (x + 1) % 16 := by omega
  have f1 : (((y : Int) + -1) % 16).toNat = (y + 16 - 1) % 16 := by omega
  have f2 : (((y : Int) + 0) % 16).toNat = (y + 0) % 16 := by omega
  have f3 : (((y : Int) + 1) % 16).toNat = (y + 1) % 16 := by omega
  simp only [moore_count, moore_offsets, List.countP_cons, List.countP_nil, e1, e2, e3, f1,
    f2, f3, neighbours, MAXX, MAXY, gt0_eq, alive, decide_eq_true_eq, Nat.zero_add]
  omega

/-- The count reads only the buffer it is asked about. -/
theorem neighbours_congr (s t : State) (x y g : Nat)
    (h : ∀ a b, t.states a b g = s.states a b g) :
    neighbours t x y g = neighbours s x y g := by
  simp only [neighbours, h]

theorem other_ne (g : Nat) : other g ≠ g := by
  unfold other
  split <;> omega

theorem other_lt (g : Nat) : other g < 2 := by
  unfold other
  split <;> omega

/-! ## Loops -/

theorem forUpTo_succ {σ : Type} (n : Nat) (body : Nat → σ → σ) (s : σ) :
    forUpTo (n + 1) body s = body n (forUpTo n body s) := rfl

theorem forUpTo_zero {σ : Type} (body : Nat → σ → σ) (s : σ) :
    forUpTo 0 body s = s := rfl

/-- An invariant of the body that holds at the start holds at the end. -/
theorem forUpTo_inv {σ : Type} (P : σ → Prop) (body : Nat → σ → σ)
    (h : ∀ i s, P s → P (body i s)) (n : Nat) (s : σ) (hs : P s) :
    P (forUpTo n body s) := by
  induction n with
  | zero => exact hs
  | succ n ih => exact h n _ ih

/-! ## The loops of `next_gen()` in closed form -/

/-- One iteration of the cell loop, run in a state that differs from `s`
only in `states` and agrees with `s` on buffer `s.gen`. -/
theorem next_gen_cell_eq (s : State) (st : Nat → Nat → Nat → Nat)
    (hst : ∀ a b, st a b s.gen = s.states a b s.gen) (x y c : Nat) :
    next_gen_cell (other s.gen) x y ({ s with states := st }, c) =
      ({ s with states := write3 st x y (other s.gen) (if rule s x y then 1 else 0) },
        c + (if rule s x y then 1 else 0)) := by
  have hn : neighbours { s with states := st } x y s.gen = neighbours s x y s.gen :=
    neighbours_congr s _ x y s.gen hst
  unfold next_gen_cell
  simp only [hn, hst]
  by_cases h1 : s.states x y s.gen ≠ 0 ∧
      (neighbours s x y s.gen ≥ s.live_min ∧ neighbours s x y s.gen ≤ s.live_max)
  · have hr : rule s x y = true := by simp only [rule, decide_eq_true_eq]; exact Or.inl h1
    rw [if_pos h1]
    simp only [hr, if_true]
  · by_cases h2 : ¬ (s.states x y s.gen ≠ 0) ∧
        (neighbours s x y s.gen ≥ s.birth_min ∧ neighbours s x y s.gen ≤ s.birth_max)
    · have hr : rule s x y = true := by simp only [rule, decide_eq_true_eq]; exact Or.inr h2
      rw [if_neg h1, if_pos h2]
      simp only [hr, if_true]
    · have hr : rule s x y = false := by
        simp only [rule, decide_eq_false_iff_not]
        rintro (h | h)
        · exact h1 h
        · exact h2 h
      rw [if_neg h1, if_neg h2]
      simp only [hr, Nat.add_zero]
      rfl

/-- The inner loop over `y`, for a fixed `x`. -/
theorem next_gen_inner_eq (s : State) (x : Nat) (st : Nat → Nat → Nat → Nat)
    (hst : ∀ a b, st a b s.gen = s.states a b s.gen) (c m : Nat) :
    forUpTo m (fun y p => next_gen_cell (other s.gen) x y p) ({ s with states := st }, c) =
      ({ s with states := fun a b g =>
          if a = x ∧ b < m ∧ g = other s.gen then (if rule s a b then 1 else 0) else st a b g },
        c + (List.range m).countP (fun y => rule s x y)) := by
  induction m with
  | zero =>
    simp only [forUpTo_zero, Nat.not_lt_zero, false_and, and_false, if_false, List.range_zero,
      List.countP_nil, Nat.add_zero]
  | succ m ih =>
    rw [forUpTo_succ, ih, next_gen_cell_eq s _ _ x m]
    · congr 1
      · congr 1
        funext a b g
        simp only [write3]
        have hlt : b < m + 1 ↔ (b < m ∨ b = m) := by omega
        by_cases ha : a = x
        · by_cases hb : b = m
          · subst ha; subst hb
            by_cases hg : g = other s.gen <;> simp [hg]
          · by_cases hg : g = other s.gen <;> simp [ha, hb, hg, hlt]
        · simp [ha]
      · rw [List.range_succ m, List.countP_append, List.countP_cons, List.countP_nil]
        simp only [Nat.zero_add, Nat.add_assoc]
    · intro a b
      have := other_ne s.gen
      simp only [hst, this.symm, and_false, if_false]

/-- The outer loop over `x`. -/
theorem next_gen_outer_eq (s : State) (n : Nat) :
    forUpTo n (fun x p => forUpTo 16 (fun y p => next_gen_cell (other s.gen) x y p) p) (s, 0) =
      ({ s with states := fun a b g =>
          if a < n ∧ b < 16 ∧ g = other s.gen then (if rule s a b then 1 else 0)
          else s.states a b g },
        ((List.range n).map (fun x => (List.range 16).countP (fun y => rule s x y))).sum) := by
  induction n with
  | zero =>
    simp only [forUpTo_zero, Nat.not_lt_zero, false_and, if_false, List.range_zero,
      List.map_nil, List.sum_nil]
  | succ n ih =>
    rw [forUpTo_succ, ih, next_gen_inner_eq s n]
    · congr 1
      · congr 1
        funext a b g
        by_cases ha : a = n
        · subst ha
          simp
        · by_cases hlt : a < n
          · have : a < n + 1 := by omega
            simp [ha, hlt, this]
          · have : ¬ a < n + 1 := by omega
            simp [ha, hlt, this]
      · rw [List.range_succ n, List.map_append, List.sum_append]
        simp
    · intro a b
      have := other_ne s.gen
      simp only [this.symm, and_false, if_false]

theorem next_gen_loop_eq (s : State) :
    next_gen_loop s = ({ s with states := next_states s }, rule_count s) := by
  have h := next_gen_outer_eq s 16
  unfold next_gen_loop
  simp only [MAXX, MAXY]
  exact h

/-! ## `visualize()` changes nothing but the record of calls -/

theorem frame_emit (c : HwCall) (s : State) : frame (emit c s) = frame s := rfl

theorem frame_forUpTo (body : Nat → State → State)
    (h : ∀ i t, frame (body i t) = frame t) (n : Nat) (s : State) :
    frame (forUpTo n body s) = frame s := by
  induction n with
  | zero => rfl
  | succ n ih => rw [forUpTo_succ, h, ih]

theorem frame_forFromTo (lo hi : Int) (body : Int → State → State)
    (h : ∀ i t, frame (body i t) = frame t) (s : State) :
    frame (forFromTo lo hi body s) = frame s :=
  frame_forUpTo _ (fun _ t => h _ t) _ s

theorem frame_visualize_grid (s : State) : frame (visualize_grid s) = frame s := by
  unfold visualize_grid
  simp only []
  rw [frame_emit, frame_forUpTo, frame_emit]
  intro i t
  apply frame_forUpTo
  intro j u
  rfl

theorem frame_visualize_arc_cells (s : State) : frame (visualize_arc_cells s) = frame s := by
  unfold visualize_arc_cells
  simp only []
  rw [frame_forUpTo, frame_emit]
  intro i t
  apply frame_forUpTo
  intro j u
  rfl

theorem frame_visualize_indicator (ring : Int) (guard value scale : Nat) (s : State) :
    frame (visualize_indicator ring guard value scale s) = frame s := by
  unfold visualize_indicator
  split
  · apply frame_forFromTo
    intro j u
    rfl
  · rfl

theorem frame_visualize_indicators (s : State) : frame (visualize_indicators s) = frame s := by
  unfold visualize_indicators
  simp only [frame_visualize_indicator]

theorem frame_visualize (s : State) : frame (visualize s) = frame s := by
  unfold visualize
  rw [frame_emit, frame_visualize_indicators, frame_visualize_arc_cells, frame_visualize_grid]

theorem eq_of_frame_eq (t s : State) (h : frame t = frame s) : t = { s with out := t.out } := by
  cases t
  cases s
  simp only [frame, State.mk.injEq] at h
  simp only [State.mk.injEq, h, and_self]

theorem visualize_eq (s : State) : visualize s = { s with out := (visualize s).out } :=
  eq_of_frame_eq _ _ (frame_visualize s)

/-! ## `seed()` in closed form -/

theorem walk_lt (r : Nat → Nat) (d i : Nat) : (walk r d i).1 < 16 ∧ (walk r d i).2 < 16 := by
  cases i with
  | zero => exact ⟨Nat.mod_lt _ (by decide), Nat.mod_lt _ (by decide)⟩
  | succ i => exact ⟨Nat.mod_lt _ (by decide), Nat.mod_lt _ (by decide)⟩

theorem seed_hit_iff (sx sy : Nat → Nat) (n a b : Nat) :
    seed_hit sx sy n a b = true ↔ ∃ i, i < n ∧ a = sx i ∧ b = sy i := by
  simp only [seed_hit, List.any_eq_true, List.mem_range, decide_eq_true_eq]

theorem seed_step_walked (s : State) (k : Nat) :
    seed_step (k + 1) (walked s k) = walked s (k + 1) := by
  have hx := (walk_lt s.env.rand s.drawn (k + 1)).1
  have hy := (walk_lt s.env.rand s.drawn (k + 1)).2
  simp only [walk, walk_next] at hx hy
  simp only [seed_step, rand, walked, MAXX, MAXY, Nat.add_sub_cancel, Nat.le_refl, if_true,
    State.mk.injEq, true_and, and_true]
  refine ⟨?_, ?_, ?_⟩
  · funext j
    simp only [write1]
    by_cases hj : j = k + 1
    · subst hj
      simp only [if_true, Nat.le_refl, walk, walk_next]
      split_ifs <;> omega
    · have : j ≤ k + 1 ↔ j ≤ k := by omega
      simp only [hj, if_false, this]
  · funext j
    simp only [write1]
    by_cases hj : j = k + 1
    · subst hj
      simp only [if_true, Nat.le_refl, walk, walk_next]
      have e : s.drawn + 2 * k + 2 + 1 = s.drawn + 2 * k + 3 := by omega
      rw [e]
      split_ifs <;> omega
    · have : j ≤ k + 1 ↔ j ≤ k := by omega
      simp only [hj, if_false, this]
  · omega

theorem seed_walk_loop_eq (s : State) (k : Nat) :
    forUpTo k (fun k t => seed_step (k + 1) t) (walked s 0) = walked s k := by
  induction k with
  | zero => rfl
  | succ k ih => rw [forUpTo_succ, ih, seed_step_walked]

theorem seed_walk_eq (s : State) : seed_walk s = { walked s 15 with seed_count := 0 } := by
  have h0 : walked s 0 =
      { s with
        seed_x := write1 s.seed_x 0 ((s.env.rand s.drawn % MAXX) % 256)
        seed_y := write1 s.seed_y 0 ((s.env.rand (s.drawn + 1) % MAXY) % 256)
        drawn := s.drawn + 1 + 1 } := by
    simp only [walked, MAXX, MAXY, State.mk.injEq, true_and, and_true]
    refine ⟨?_, ?_⟩
    · funext j
      simp only [write1, Nat.le_zero]
      by_cases hj : j = 0
      · subst hj
        simp only [if_true, walk]
        omega
      · simp only [hj, if_false]
    · funext j
      simp only [write1, Nat.le_zero]
      by_cases hj : j = 0
      · subst hj
        simp only [if_true, walk]
        omega
      · simp only [hj, if_false]
  have h := seed_walk_loop_eq s 15
  simp only [seed_walk, rand, SEED_CELL_COUNT]
  rw [h0] at h
  rw [← h]

theorem seed_hit_succ (sx sy : Nat → Nat) (n a b : Nat) :
    seed_hit sx sy (n + 1) a b = (seed_hit sx sy n a b || decide (a = sx n ∧ b = sy n)) := by
  simp only [seed_hit, List.range_succ n, List.any_append, List.any_cons, List.any_nil,
    Bool.or_false]

theorem seed_mark_loop_eq (t : State) (n : Nat) :
    forUpTo n seed_mark t =
      { t with states := fun a b g =>
          if g = t.gen ∧ seed_hit t.seed_x t.seed_y n a b = true then 1 else t.states a b g } := by
  induction n with
  | zero =>
    simp only [forUpTo_zero, seed_hit, List.range_zero, List.any_nil, Bool.false_eq_true,
      and_false, if_false]
  | succ n ih =>
    rw [forUpTo_succ, ih]
    simp only [seed_mark, State.mk.injEq, true_and, and_true]
    funext a b g
    simp only [write3, seed_hit_succ, Bool.or_eq_true, decide_eq_true_eq]
    by_cases hg : g = t.gen <;> by_cases ha : a = t.seed_x n <;> by_cases hb : b = t.seed_y n <;>
      by_cases hh : seed_hit t.seed_x t.seed_y n a b = true <;> simp [hg, ha, hb, hh]

theorem seed_eq (s : State) : seed s = seeded s := by
  unfold seed
  rw [seed_walk_eq, SEED_CELL_COUNT, seed_mark_loop_eq]
  rfl

/-! ## `next_gen()` in closed form -/

theorem next_gen_eq (s : State) :
    next_gen s = visualize (if rule_count s = 0 then seeded (stepped s) else stepped s) := by
  unfold next_gen
  simp only [next_gen_loop_eq, seed_eq]
  rfl

theorem next_gen_count_eq (s : State) : (next_gen_loop s).2 = rule_count s := by
  rw [next_gen_loop_eq]

/-- States with the same frame agree on every field but `out`. -/
theorem frame_fields {t u : State} (h : frame t = frame u) :
    t.live_min = u.live_min ∧ t.live_max = u.live_max ∧ t.birth_min = u.birth_min ∧
    t.birth_max = u.birth_max ∧ t.reseed_div = u.reseed_div ∧ t.wave_repeat = u.wave_repeat ∧
    t.gen = u.gen ∧ t.cv_update_count = u.cv_update_count ∧ t.seed_count = u.seed_count ∧
    t.wave_count = u.wave_count ∧ t.states = u.states ∧ t.seed_x = u.seed_x ∧
    t.seed_y = u.seed_y ∧ t.env = u.env ∧ t.drawn = u.drawn := by
  cases t
  cases u
  simp only [frame, State.mk.injEq] at h
  simp only [h, and_self]

theorem frame_states {t s : State} (h : frame t = frame s) : t.states = s.states := by
  have e := congrArg State.states h
  exact e

theorem frame_gen {t s : State} (h : frame t = frame s) : t.gen = s.gen := by
  have e := congrArg State.gen h
  exact e

theorem frame_drawn {t s : State} (h : frame t = frame s) : t.drawn = s.drawn := by
  have e := congrArg State.drawn h
  exact e

theorem visualize_states (s : State) : (visualize s).states = s.states :=
  frame_states (frame_visualize s)

theorem visualize_gen (s : State) : (visualize s).gen = s.gen :=
  frame_gen (frame_visualize s)

theorem visualize_drawn (s : State) : (visualize s).drawn = s.drawn :=
  frame_drawn (frame_visualize s)

theorem next_gen_gen (s : State) : (next_gen s).gen = other s.gen := by
  rw [next_gen_eq, visualize_gen]
  split <;> rfl

theorem next_gen_states_of_count (s : State) (h : rule_count s ≠ 0) :
    (next_gen s).states = next_states s := by
  rw [next_gen_eq, visualize_states, if_neg h]
  rfl

theorem next_gen_drawn_of_count (s : State) (h : rule_count s ≠ 0) :
    (next_gen s).drawn = s.drawn := by
  rw [next_gen_eq, visualize_drawn, if_neg h]
  rfl

theorem rule_iff_spec (s : State) (x y : Nat) (hx : x < 16) (hy : y < 16) :
    rule s x y = true ↔ rule_spec s x y := by
  simp only [rule, rule_spec, alive, decide_eq_true_eq, decide_eq_false_iff_not, ge_iff_le,
    neighbours_eq_moore_count s x y s.gen hx hy]

theorem sum_map_eq_zero (l : List Nat) (f : Nat → Nat) :
    (l.map f).sum = 0 ↔ ∀ x ∈ l, f x = 0 := by
  induction l with
  | nil => simp
  | cons a l ih => simp [ih]

theorem rule_count_eq_zero (s : State) :
    rule_count s = 0 ↔ ∀ x y, x < 16 → y < 16 → rule s x y = false := by
  unfold rule_count
  rw [sum_map_eq_zero]
  simp only [List.mem_range, List.countP_eq_zero, Bool.not_eq_true]
  constructor <;> intro h x y hx hy <;> exact h x hx y hy

/-! ## The rule on grids of booleans -/

theorem gt0_eq_b2n (v : Nat) : gt0 v = b2n (decide (v ≠ 0)) := by
  rw [gt0_eq]
  by_cases h : v = 0 <;> simp [h, b2n]

theorem neighbours_eq_ncount (s : State) (x y : Nat) :
    neighbours s x y s.gen = ncount (grid_of s) x y := by
  simp only [neighbours, ncount, grid_of, alive, gt0_eq_b2n, MAXX, MAXY]

theorem rule_eq_life_rule (s : State) (x y : Nat) :
    rule s x y = life_rule s.live_min s.live_max s.birth_min s.birth_max (grid_of s) x y := by
  rw [Bool.eq_iff_iff]
  simp only [rule, life_rule, neighbours_eq_ncount, decide_eq_true_eq, Bool.or_eq_true,
    Bool.and_eq_true, Bool.not_eq_true', ge_iff_le, and_assoc]
  simp only [grid_of, alive, decide_eq_true_eq, decide_eq_false_iff_not]

theorem ncount_congr (A B : Nat → Nat → Bool)
    (h : ∀ a b, a < 16 → b < 16 → A a b = B a b) (x y : Nat) : ncount A x y = ncount B x y := by
  have m : ∀ n : Nat, n % 16 < 16 := fun n => Nat.mod_lt n (by decide)
  simp only [ncount, h _ _ (m _) (m _)]

theorem life_rule_congr (lmin lmax bmin bmax : Nat) (A B : Nat → Nat → Bool)
    (h : ∀ a b, a < 16 → b < 16 → A a b = B a b) (x y : Nat) (hx : x < 16) (hy : y < 16) :
    life_rule lmin lmax bmin bmax A x y = life_rule lmin lmax bmin bmax B x y := by
  simp only [life_rule, ncount_congr A B h x y, h x y hx hy]

theorem ncount_shift (A : Nat → Nat → Bool) (dx dy x y : Nat) (hdx : dx < 16) (hdy : dy < 16) :
    ncount (shift_grid A dx dy) x y = ncount A ((x + 16 - dx) % 16) ((y + 16 - dy) % 16) := by
  have a1 : ((x + 16 - 1) % 16 + 16 - dx) % 16 = ((x + 16 - dx) % 16 + 16 - 1) % 16 := by omega
  have a2 : ((x + 0) % 16 + 16 - dx) % 16 = ((x + 16 - dx) % 16 + 0) % 16 := by omega
  have a3 : ((x + 1) % 16 + 16 - dx) % 16 = ((x + 16 - dx) % 16 + 1) % 16 := by omega
  have b1 : ((y + 16 - 1) % 16 + 16 - dy) % 16 = ((y + 16 - dy) % 16 + 16 - 1) % 16 := by omega
  have b2 : ((y + 0) % 16 + 16 - dy) % 16 = ((y + 16 - dy) % 16 + 0) % 16 := by omega
  have b3 : ((y + 1) % 16 + 16 - dy) % 16 = ((y + 16 - dy) % 16 + 1) % 16 := by omega
  simp only [ncount, shift_grid, a1, a2, a3, b1, b2, b3]

/-- The rule commutes with moving the grid on the torus. -/
theorem life_rule_shift (lmin lmax bmin bmax : Nat) (A : Nat → Nat → Bool) (dx dy x y : Nat)
    (hdx : dx < 16) (hdy : dy < 16) :
    life_rule lmin lmax bmin bmax (shift_grid A dx dy) x y =
      life_rule lmin lmax bmin bmax A ((x + 16 - dx) % 16) ((y + 16 - dy) % 16) := by
  simp only [life_rule, ncount_shift A dx dy x y hdx hdy]
  rfl

theorem pattern_grid_shift (cells : List (Nat × Nat)) (ox oy x y : Nat)
    (hox : ox < 16) (hoy : oy < 16) (hx : x < 16) (hy : y < 16) :
    pattern_grid cells ox oy x y = shift_grid (pattern_grid cells 0 0) ox oy x y := by
  rw [Bool.eq_iff_iff]
  simp only [pattern_grid, shift_grid, placed, decide_eq_true_eq, List.mem_map, Prod.mk.injEq]
  constructor
  · rintro ⟨c, hc, h1, h2⟩
    exact ⟨c, hc, by omega, by omega⟩
  · rintro ⟨c, hc, h1, h2⟩
    exact ⟨c, hc, by omega, by omega⟩

/-- A step between two patterns that holds at offset `(0, 0)` holds at every
offset. -/
theorem pattern_step_placed (lmin lmax bmin bmax : Nat) (cells cells' : List (Nat × Nat))
    (h : ∀ x, x < 16 → ∀ y, y < 16 →
      life_rule lmin lmax bmin bmax (pattern_grid cells 0 0) x y = pattern_grid cells' 0 0 x y)
    (ox oy x y : Nat) (hox : ox < 16) (hoy : oy < 16) (hx : x < 16) (hy : y < 16) :
    life_rule lmin lmax bmin bmax (pattern_grid cells ox oy) x y =
      pattern_grid cells' ox oy x y := by
  rw [life_rule_congr _ _ _ _ _ (shift_grid (pattern_grid cells 0 0) ox oy)
      (fun a b ha hb => pattern_grid_shift cells ox oy a b hox hoy ha hb) x y hx hy,
    life_rule_shift _ _ _ _ _ _ _ _ _ hox hoy,
    h _ (Nat.mod_lt _ (by decide)) _ (Nat.mod_lt _ (by decide)),
    pattern_grid_shift cells' ox oy x y hox hoy hx hy]
  rfl

set_option maxRecDepth 100000 in
theorem glider_phase0 : ∀ x, x < 16 → ∀ y, y < 16 →
    life_rule 2 3 3 3 (pattern_grid glider 0 0) x y = pattern_grid glider1 0 0 x y := by
  decide!

set_option maxRecDepth 100000 in
theorem glider_phase1 : ∀ x, x < 16 → ∀ y, y < 16 →
    life_rule 2 3 3 3 (pattern_grid glider1 0 0) x y = pattern_grid glider2 0 0 x y := by
  decide!

set_option maxRecDepth 100000 in
theorem glider_phase2 : ∀ x, x < 16 → ∀ y, y < 16 →
    life_rule 2 3 3 3 (pattern_grid glider2 0 0) x y = pattern_grid glider3 0 0 x y := by
  decide!

set_option maxRecDepth 100000 in
theorem glider_phase3 : ∀ x, x < 16 → ∀ y, y < 16 →
    life_rule 2 3 3 3 (pattern_grid glider3 0 0) x y = pattern_grid glider4 0 0 x y := by
  decide!

theorem placed_glider4 (ox oy : Nat) : placed glider4 ox oy = placed glider (ox + 1) (oy + 1) := by
  simp only [placed, glider4, glider, List.map_cons, List.map_nil]
  have e : ∀ a b : Nat, (a + 1 + b) % 16 = (a + (b + 1)) % 16 := fun a b => by omega
  simp only [← e]

/-! ## One generation without re-seeding -/

theorem frame_next_gen_of_count (s : State) (hc : rule_count s ≠ 0) :
    frame (next_gen s) = frame (stepped s) := by
  rw [next_gen_eq, frame_visualize, if_neg hc]

theorem next_gen_of_count (s : State) (hc : rule_count s ≠ 0) :
    (next_gen s).live_min = s.live_min ∧ (next_gen s).live_max = s.live_max ∧
    (next_gen s).birth_min = s.birth_min ∧ (next_gen s).birth_max = s.birth_max ∧
    (next_gen s).drawn = s.drawn ∧ (next_gen s).gen = other s.gen ∧
    (next_gen s).states = next_states s := by
  have h := frame_fields (frame_next_gen_of_count s hc)
  exact ⟨h.1, h.2.1, h.2.2.1, h.2.2.2.1, h.2.2.2.2.2.2.2.2.2.2.2.2.2.2, h.2.2.2.2.2.2.1,
    h.2.2.2.2.2.2.2.2.2.2.1⟩

theorem grid_of_next_gen (s : State) (hc : rule_count s ≠ 0) (x y : Nat)
    (hx : x < 16) (hy : y < 16) :
    grid_of (next_gen s) x y =
      life_rule s.live_min s.live_max s.birth_min s.birth_max (grid_of s) x y := by
  obtain ⟨_, _, _, _, _, hg, hs⟩ := next_gen_of_count s hc
  rw [← rule_eq_life_rule]
  simp only [grid_of, alive, hg, hs, next_states, hx, hy, true_and, if_true]
  by_cases hr : rule s x y = true <;> simp [hr]

theorem rule_count_ne_zero (s : State) (x y : Nat) (hx : x < 16) (hy : y < 16)
    (h : rule s x y = true) : rule_count s ≠ 0 := by
  intro h0
  have := (rule_count_eq_zero s).1 h0 x y hx hy
  rw [h] at this
  exact Bool.noConfusion this

/-- One generation from a placed pattern to the next, under Conway's rule:
the count is not 0, so nothing is drawn, and the thresholds stay. -/
theorem pattern_step (s : State) (cells cells' : List (Nat × Nat)) (c : Nat × Nat)
    (hmem : c ∈ cells')
    (hstep : ∀ x, x < 16 → ∀ y, y < 16 →
      life_rule 2 3 3 3 (pattern_grid cells 0 0) x y = pattern_grid cells' 0 0 x y)
    (ox oy : Nat) (hox : ox < 16) (hoy : oy < 16) (hp : conway s)
    (h : ∀ x y, x < 16 → y < 16 → grid_of s x y = pattern_grid cells ox oy x y) :
    (next_gen_loop s).2 ≠ 0 ∧ conway (next_gen s) ∧ (next_gen s).drawn = s.drawn ∧
    ∀ x y, x < 16 → y < 16 → grid_of (next_gen s) x y = pattern_grid cells' ox oy x y := by
  obtain ⟨p1, p2, p3, p4⟩ := hp
  have hrule : ∀ x y, x < 16 → y < 16 → rule s x y = pattern_grid cells' ox oy x y := by
    intro x y hx hy
    rw [rule_eq_life_rule, p1, p2, p3, p4,
      life_rule_congr 2 3 3 3 (grid_of s) (pattern_grid cells ox oy) h x y hx hy]
    exact pattern_step_placed 2 3 3 3 cells cells' hstep ox oy x y hox hoy hx hy
  have hc : rule_count s ≠ 0 := by
    apply rule_count_ne_zero s ((c.1 + ox) % 16) ((c.2 + oy) % 16)
      (Nat.mod_lt _ (by decide)) (Nat.mod_lt _ (by decide))
    rw [hrule _ _ (Nat.mod_lt _ (by decide)) (Nat.mod_lt _ (by decide))]
    simp only [pattern_grid, placed, decide_eq_true_eq, List.mem_map]
    exact ⟨c, hmem, rfl⟩
  obtain ⟨q1, q2, q3, q4, q5, _, _⟩ := next_gen_of_count s hc
  refine ⟨by rw [next_gen_count_eq]; exact hc, ⟨by rw [q1, p1], by rw [q2, p2], by rw [q3, p3],
    by rw [q4, p4]⟩, q5, ?_⟩
  intro x y hx hy
  rw [grid_of_next_gen s hc x y hx hy, ← rule_eq_life_rule]
  exact hrule x y hx hy

/-! ## The rule step -/

/-- C1: for a state with `gen` in {0, 1} and any thresholds, if the count of
cells that `next_gen()` computed alive is not 0, then after `next_gen()` every
cell `(x, y)`, `x, y < 16`, of the new active buffer is alive iff it was alive
with `live_min <= n <= live_max` or dead with `birth_min <= n <= birth_max`,
`n` being the number of its live toroidal Moore neighbours in the old active
buffer; and when `live_min > live_max` and `birth_min > birth_max` no cell
satisfies the rule (and the count is 0). -/
theorem next_gen_rule_step (s : State) (_hg : s.gen < 2) :
    ((next_gen_loop s).2 ≠ 0 →
      ∀ x y, x < 16 → y < 16 →
        (alive (next_gen s) x y (next_gen s).gen = true ↔ rule_spec s x y)) ∧
    (s.live_min > s.live_max → s.birth_min > s.birth_max →
      (∀ x y, ¬ rule_spec s x y) ∧ (next_gen_loop s).2 = 0) := by
  constructor
  · intro hc x y hx hy
    rw [next_gen_count_eq] at hc
    rw [← rule_iff_spec s x y hx hy]
    simp only [alive, next_gen_states_of_count s hc, next_gen_gen, next_states, hx, hy,
      true_and, if_true, decide_eq_true_eq]
    by_cases hr : rule s x y = true <;> simp [hr]
  · intro hl hb
    have hno : ∀ x y, ¬ rule_spec s x y := by
      intro x y h
      rcases h with ⟨_, h1, h2⟩ | ⟨_, h1, h2⟩ <;> omega
    refine ⟨hno, ?_⟩
    rw [next_gen_count_eq, rule_count_eq_zero]
    intro x y hx hy
    have := hno x y
    rw [← rule_iff_spec s x y hx hy] at this
    simpa using this

/-- An instance of C1: the middle cell of a blinker stays alive under the
start-up thresholds, and with both ranges empty nothing satisfies the rule. -/
theorem next_gen_rule_step_witness :
    (alive (next_gen (blinker env0)) 1 1 (next_gen (blinker env0)).gen = true ↔
      rule_spec (blinker env0) 1 1) ∧
    ((∀ x y, ¬ rule_spec (blinker_no_rule env0) x y) ∧
      (next_gen_loop (blinker_no_rule env0)).2 = 0) :=
  ⟨(next_gen_rule_step (blinker env0) (by decide)).1
      (by rw [next_gen_count_eq]; decide) 1 1 (by decide) (by decide),
    (next_gen_rule_step (blinker_no_rule env0) (by decide)).2 (by decide) (by decide)⟩

/-! ## The neighbour count is toroidal -/

/-- C2: for `x, y < 16` and a buffer index `g` in {0, 1}, `neighbours(x, y, g)`
is the number of the eight Moore offsets whose cell, taken modulo 16 on both
axes, is alive in buffer `g`; and when exactly the eight cells around `(0, 0)`
are alive, `neighbours(0, 0, g)` is 8. -/
theorem neighbours_toroidal (s : State) (g : Nat) (_hg : g < 2) :
    (∀ x y, x < 16 → y < 16 → neighbours s x y g = moore_count s x y g) ∧
    ((∀ x y, x < 16 → y < 16 → (alive s x y g = true ↔ (x, y) ∈ around_origin)) →
      neighbours s 0 0 g = 8) := by
  constructor
  · intro x y hx hy
    exact neighbours_eq_moore_count s x y g hx hy
  · intro h
    have a := fun x y hx hy => (h x y hx hy).2
    simp only [neighbours, MAXX, MAXY, gt0_eq]
    have h1 := a 15 15 (by decide) (by decide) (by decide)
    have h2 := a 0 15 (by decide) (by decide) (by decide)
    have h3 := a 1 15 (by decide) (by decide) (by decide)
    have h4 := a 15 0 (by decide) (by decide) (by decide)
    have h5 := a 1 0 (by decide) (by decide) (by decide)
    have h6 := a 15 1 (by decide) (by decide) (by decide)
    have h7 := a 0 1 (by decide) (by decide) (by decide)
    have h8 := a 1 1 (by decide) (by decide) (by decide)
    simp only [alive, decide_eq_true_eq] at h1 h2 h3 h4 h5 h6 h7 h8
    norm_num [h1, h2, h3, h4, h5, h6, h7, h8]

/-- An instance of C2 on the grid whose live cells are the eight cells around
`(0, 0)`. -/
theorem neighbours_toroidal_witness :
    neighbours (ring_state env0) 0 0 0 = moore_count (ring_state env0) 0 0 0 ∧
    neighbours (ring_state env0) 0 0 0 = 8 :=
  ⟨(neighbours_toroidal (ring_state env0) 0 (by decide)).1 0 0 (by decide) (by decide),
    (neighbours_toroidal (ring_state env0) 0 (by decide)).2 (by
      intro x y _ _
      simp [alive, ring_state, with_cells])⟩

/-! ## The glider -/

/-- C3: under Conway's thresholds (2, 3, 3, 3), if the live cells of the
active buffer are exactly those of the glider placed at an offset
`(ox, oy)` modulo 16, then after four calls of `next_gen()` the live cells of
the active buffer are exactly those of the glider placed at
`(ox + 1, oy + 1)`; in each of the four calls the count that guards `seed()`
is not 0, and no random number has been drawn. -/
theorem glider_advances (s : State) (ox oy : Nat) (hox : ox < 16) (hoy : oy < 16)
    (_hg : s.gen < 2) (hp : conway s)
    (h : ∀ x y, x < 16 → y < 16 →
      (alive s x y s.gen = true ↔ (x, y) ∈ placed glider ox oy)) :
    (∀ x y, x < 16 → y < 16 →
      (alive (next_gen (next_gen (next_gen (next_gen s)))) x y
          (next_gen (next_gen (next_gen (next_gen s)))).gen = true ↔
        (x, y) ∈ placed glider (ox + 1) (oy + 1))) ∧
    ((next_gen_loop s).2 ≠ 0 ∧ (next_gen_loop (next_gen s)).2 ≠ 0 ∧
      (next_gen_loop (next_gen (next_gen s))).2 ≠ 0 ∧
      (next_gen_loop (next_gen (next_gen (next_gen s)))).2 ≠ 0) ∧
    (next_gen (next_gen (next_gen (next_gen s)))).drawn = s.drawn := by
  have h0 : ∀ x y, x < 16 → y < 16 → grid_of s x y = pattern_grid glider ox oy x y := by
    intro x y hx hy
    rw [Bool.eq_iff_iff]
    simp only [grid_of, pattern_grid, decide_eq_true_eq]
    exact h x y hx hy
  obtain ⟨c1, p1, d1, g1⟩ := pattern_step s glider glider1 (0, 1) (by decide) glider_phase0
    ox oy hox hoy hp h0
  obtain ⟨c2, p2, d2, g2⟩ := pattern_step _ glider1 glider2 (2, 1) (by decide) glider_phase1
    ox oy hox hoy p1 g1
  obtain ⟨c3, p3, d3, g3⟩ := pattern_step _ glider2 glider3 (1, 1) (by decide) glider_phase2
    ox oy hox hoy p2 g2
  obtain ⟨c4, _, d4, g4⟩ := pattern_step _ glider3 glider4 (2, 1) (by decide) glider_phase3
    ox oy hox hoy p3 g3
  refine ⟨?_, ⟨c1, c2, c3, c4⟩, by rw [d4, d3, d2, d1]⟩
  intro x y hx hy
  have := g4 x y hx hy
  simp only [grid_of, pattern_grid, placed_glider4] at this
  rw [this, decide_eq_true_eq]

/-- An instance of C3: the glider placed at `(3, 5)` is found at `(4, 6)` four
generations later; cell `(5, 6)` is the image of its first cell `(1, 0)`. -/
theorem glider_advances_witness :
    (alive (next_gen (next_gen (next_gen (next_gen (glider_state env0))))) 5 6
        (next_gen (next_gen (next_gen (next_gen (glider_state env0))))).gen = true ↔
      (5, 6) ∈ placed glider (3 + 1) (5 + 1)) ∧
    (next_gen (next_gen (next_gen (next_gen (glider_state env0))))).drawn =
      (glider_state env0).drawn :=
  ⟨(glider_advances (glider_state env0) 3 5 (by decide) (by decide) (by decide)
      (by decide)
      (by
        intro x y _ _
        simp [alive, glider_state, with_cells, init])).1 5 6 (by decide) (by decide),
    (glider_advances (glider_state env0) 3 5 (by decide) (by decide) (by decide)
      (by decide)
      (by
        intro x y _ _
        simp [alive, glider_state, with_cells, init])).2.2⟩

/-! ## Counting live cells -/

theorem frame_next_gen_of_zero (s : State) (hc : rule_count s = 0) :
    frame (next_gen s) = frame (seeded (stepped s)) := by
  rw [next_gen_eq, frame_visualize, if_pos hc]

/-- After a generation that came out empty, the live cells of the active buffer
are the seed points. -/
theorem alive_next_gen_of_zero (s : State) (hc : rule_count s = 0) (x y : Nat)
    (hx : x < 16) (hy : y < 16) :
    alive (next_gen s) x y (next_gen s).gen = true ↔
      ∃ i, i < 16 ∧ x = (next_gen s).seed_x i ∧ y = (next_gen s).seed_y i := by
  have h := frame_fields (frame_next_gen_of_zero s hc)
  have hr := (rule_count_eq_zero s).1 hc x y hx hy
  unfold alive
  rw [h.2.2.2.2.2.2.1, h.2.2.2.2.2.2.2.2.2.2.1, h.2.2.2.2.2.2.2.2.2.2.2.1,
    h.2.2.2.2.2.2.2.2.2.2.2.2.1, ← seed_hit_iff]
  simp only [seeded, walked, stepped, next_states, hx, hy, hr, true_and, if_true,
    decide_eq_true_eq]
  by_cases hh : seed_hit (fun j => if j ≤ 15 then (walk s.env.rand s.drawn j).1 else s.seed_x j)
    (fun j => if j ≤ 15 then (walk s.env.rand s.drawn j).2 else s.seed_y j) 16 x y = true <;>
    simp [hh]

/-- The seed points after `next_gen()` re-seeded lie on the grid. -/
theorem seed_points_lt_of_zero (s : State) (hc : rule_count s = 0) (i : Nat) (hi : i < 16) :
    (next_gen s).seed_x i < 16 ∧ (next_gen s).seed_y i < 16 := by
  have h := frame_fields (frame_next_gen_of_zero s hc)
  rw [h.2.2.2.2.2.2.2.2.2.2.2.1, h.2.2.2.2.2.2.2.2.2.2.2.2.1]
  have hi' : i ≤ 15 := by omega
  simp only [seeded, walked, hi', if_true]
  exact walk_lt _ _ _

theorem mem_all_cells (c : Nat × Nat) : c ∈ all_cells ↔ c.1 < 16 ∧ c.2 < 16 := by
  obtain ⟨a, b⟩ := c
  unfold all_cells
  exact List.mem_product.trans (by simp only [List.mem_range])

theorem nodup_all_cells : all_cells.Nodup :=
  List.Nodup.product (List.nodup_range 16) (List.nodup_range 16)

theorem live_count_congr (s t : State) (g g' : Nat)
    (h : ∀ x y, x < 16 → y < 16 → alive s x y g = alive t x y g') :
    live_count s g = live_count t g' := by
  unfold live_count
  apply List.countP_congr
  intro c hc
  rw [mem_all_cells] at hc
  rw [h c.1 c.2 hc.1 hc.2]

/-- If every live cell is one of the points of `pts`, there are at most
`pts.length` live cells. -/
theorem live_count_le (s : State) (g : Nat) (pts : List (Nat × Nat))
    (h : ∀ x y, x < 16 → y < 16 → alive s x y g = true → (x, y) ∈ pts) :
    live_count s g ≤ pts.length := by
  unfold live_count
  rw [List.countP_eq_length_filter]
  apply List.Subperm.length_le
  apply List.Nodup.subperm (List.Nodup.filter _ nodup_all_cells)
  intro c hc
  rw [List.mem_filter, mem_all_cells] at hc
  exact h c.1 c.2 hc.1.1 hc.1.2 hc.2

theorem live_count_pos (s : State) (g x y : Nat) (hx : x < 16) (hy : y < 16)
    (h : alive s x y g = true) : 0 < live_count s g := by
  unfold live_count
  rw [List.countP_pos_iff]
  exact ⟨(x, y), (mem_all_cells (x, y)).2 ⟨hx, hy⟩, h⟩

/-- Two live cells in different columns make a live count of at least 2. -/
theorem live_count_two (s : State) (g x1 y1 x2 y2 : Nat) (hne : x1 ≠ x2)
    (hx1 : x1 < 16) (hy1 : y1 < 16) (hx2 : x2 < 16) (hy2 : y2 < 16)
    (a1 : alive s x1 y1 g = true) (a2 : alive s x2 y2 g = true) :
    2 ≤ live_count s g := by
  unfold live_count
  rw [List.countP_eq_length_filter]
  have hn : [(x1, y1), (x2, y2)].Nodup := by
    rw [List.nodup_cons]
    refine ⟨?_, List.nodup_singleton _⟩
    rw [List.mem_singleton]
    intro h
    exact hne (Prod.mk.inj h).1
  have hsub : [(x1, y1), (x2, y2)] ⊆ all_cells.filter (fun c => alive s c.1 c.2 g) := by
    intro c hc
    rw [List.mem_cons, List.mem_singleton] at hc
    rw [List.mem_filter, mem_all_cells]
    rcases hc with rfl | rfl
    · exact ⟨⟨hx1, hy1⟩, a1⟩
    · exact ⟨⟨hx2, hy2⟩, a2⟩
  exact (List.Nodup.subperm hn hsub).length_le

theorem live_count_eq_zero (s : State) (g : Nat) :
    live_count s g = 0 ↔ ∀ x y, x < 16 → y < 16 → alive s x y g = false := by
  unfold live_count
  rw [List.countP_eq_zero]
  constructor
  · intro h x y hx hy
    simpa using h (x, y) ((mem_all_cells (x, y)).2 ⟨hx, hy⟩)
  · intro h c hc
    rw [mem_all_cells] at hc
    simp [h c.1 c.2 hc.1 hc.2]

/-- On an empty active buffer with `birth_min` not 0 the rule holds nowhere. -/
theorem rule_count_of_empty (s : State) (h0 : live_count s s.gen = 0) (hb : s.birth_min ≠ 0) :
    rule_count s = 0 := by
  rw [live_count_eq_zero] at h0
  rw [rule_count_eq_zero]
  intro x y hx hy
  have hn : ncount (grid_of s) x y = 0 := by
    have m : ∀ n : Nat, n % 16 < 16 := fun n => Nat.mod_lt n (by decide)
    simp only [ncount, grid_of, h0 _ _ (m _) (m _), b2n]
    rfl
  rw [rule_eq_life_rule]
  simp only [life_rule, hn, grid_of, h0 x y hx hy]
  simp
  omega

theorem live_count_of_frame {t u : State} (h : frame t = frame u) :
    live_count t t.gen = live_count u u.gen := by
  have f := frame_fields h
  apply live_count_congr
  intro x y _ _
  unfold alive
  rw [f.2.2.2.2.2.2.1, f.2.2.2.2.2.2.2.2.2.2.1]

/-! ## Conway's rule on single cells -/

/-- C4 (amended): under the thresholds (2, 3, 3, 3), for every state and every
draws, a live cell with 0 live neighbours is alive in the active buffer after
one `next_gen()` exactly when the computed generation is empty (count 0) and
the cell is one of the 16 seed points that `seed()` then marks, and is dead
otherwise; a dead cell with exactly 3 live neighbours is alive in the active
buffer after one `next_gen()`. -/
theorem conway_cell_fate (s : State) (_hg : s.gen < 2) (hp : conway s) (x y : Nat)
    (hx : x < 16) (hy : y < 16) :
    (alive s x y s.gen = true → moore_count s x y s.gen = 0 →
      (alive (next_gen s) x y (next_gen s).gen = true ↔
        ((next_gen_loop s).2 = 0 ∧
          ∃ i, i < 16 ∧ x = (next_gen s).seed_x i ∧ y = (next_gen s).seed_y i))) ∧
    (alive s x y s.gen = false → moore_count s x y s.gen = 3 →
      alive (next_gen s) x y (next_gen s).gen = true) := by
  obtain ⟨p1, p2, p3, p4⟩ := hp
  constructor
  · intro ha hn
    have hr : ¬ rule s x y = true := by
      rw [rule_iff_spec s x y hx hy]
      rintro (⟨_, h1, _⟩ | ⟨h1, _, _⟩)
      · omega
      · rw [ha] at h1
        exact Bool.noConfusion h1
    rw [next_gen_count_eq]
    by_cases hc : rule_count s = 0
    · rw [alive_next_gen_of_zero s hc x y hx hy]
      simp only [hc, true_and]
    · obtain ⟨_, _, _, _, _, hg, hs⟩ := next_gen_of_count s hc
      simp [alive, hg, hs, next_states, hx, hy, hr, hc]
  · intro ha hn
    have hr : rule s x y = true := by
      rw [rule_iff_spec s x y hx hy]
      exact Or.inr ⟨ha, by omega, by omega⟩
    have hc := rule_count_ne_zero s x y hx hy hr
    obtain ⟨_, _, _, _, _, hg, hs⟩ := next_gen_of_count s hc
    simp only [alive, hg, hs, next_states, hx, hy, true_and, if_true, hr, decide_eq_true_eq]
    decide

set_option maxRecDepth 100000 in
theorem lonely_count : rule_count (lonely env0) = 0 := by decide!

/-- C4 as stated fails: with every draw 0, the single live cell `(0, 0)`, which
has no live neighbour, is the first seed point of the re-seeding and is alive
after `next_gen()`. -/
theorem isolated_cell_reseeded :
    conway (lonely env0) ∧ alive (lonely env0) 0 0 (lonely env0).gen = true ∧
    moore_count (lonely env0) 0 0 (lonely env0).gen = 0 ∧
    alive (next_gen (lonely env0)) 0 0 (next_gen (lonely env0)).gen = true := by
  refine ⟨by decide, by decide, by decide, ?_⟩
  rw [alive_next_gen_of_zero _ lonely_count 0 0 (by decide) (by decide)]
  have h := frame_fields (frame_next_gen_of_zero _ lonely_count)
  rw [h.2.2.2.2.2.2.2.2.2.2.2.1, h.2.2.2.2.2.2.2.2.2.2.2.2.1]
  exact ⟨0, by decide, by decide, by decide⟩

/-- An instance of C4 (amended): the lonely cell at `(0, 0)`, and the dead
cell `(3, 6)` next to the glider placed at `(3, 5)`, which has three live
neighbours. -/
theorem conway_cell_fate_witness :
    (alive (next_gen (lonely env0)) 0 0 (next_gen (lonely env0)).gen = true ↔
      ((next_gen_loop (lonely env0)).2 = 0 ∧
        ∃ i, i < 16 ∧ 0 = (next_gen (lonely env0)).seed_x i ∧
          0 = (next_gen (lonely env0)).seed_y i)) ∧
    alive (next_gen (glider_state env0)) 3 6 (next_gen (glider_state env0)).gen = true :=
  ⟨(conway_cell_fate (lonely env0) (by decide) (by decide) 0 0 (by decide) (by decide)).1
      (by decide) (by decide),
    (conway_cell_fate (glider_state env0) (by decide) (by decide) 3 6 (by decide)
      (by decide)).2 (by decide) (by decide)⟩

/-! ## Extinction and re-seeding -/

/-- The first two seed points after `next_gen()` re-seeded differ. -/
theorem seed_points_ne_of_zero (s : State) (hc : rule_count s = 0) :
    (next_gen s).seed_x 0 ≠ (next_gen s).seed_x 1 := by
  have h := frame_fields (frame_next_gen_of_zero s hc)
  rw [h.2.2.2.2.2.2.2.2.2.2.2.1]
  show (seeded (stepped s)).seed_x 0 ≠ (seeded (stepped s)).seed_x 1
  have h0 : (seeded (stepped s)).seed_x 0 = (walk s.env.rand s.drawn 0).1 := rfl
  have h1 : (seeded (stepped s)).seed_x 1 = (walk s.env.rand s.drawn 1).1 := rfl
  rw [h0, h1]
  have hlt := (walk_lt s.env.rand s.drawn 0).1
  have hs : (walk s.env.rand s.drawn 1).1 =
      ((walk s.env.rand s.drawn 0).1 + (if s.env.rand (s.drawn + 2 * 0 + 2) % 2 ≠ 0 then 1
        else 15)) % 16 := rfl
  rw [hs]
  split <;> omega

/-- C5 (amended): for every state whose active buffer has no live cell and
whose `birth_min` is not 0, and for every draws, `next_gen()` computes an empty
generation (count 0), and after it the live cells of the active buffer are
exactly the 16 seed points `(seed_x[i], seed_y[i])`; they may coincide, so
the active buffer has at least 2 and at most 16 live cells. -/
theorem extinct_reseeds (s : State) (_hg : s.gen < 2) (h0 : live_count s s.gen = 0)
    (hb : s.birth_min ≠ 0) :
    (next_gen_loop s).2 = 0 ∧
    (∀ x y, x < 16 → y < 16 →
      (alive (next_gen s) x y (next_gen s).gen = true ↔
        ∃ i, i < 16 ∧ x = (next_gen s).seed_x i ∧ y = (next_gen s).seed_y i)) ∧
    2 ≤ live_count (next_gen s) (next_gen s).gen ∧
    live_count (next_gen s) (next_gen s).gen ≤ 16 := by
  have hc := rule_count_of_empty s h0 hb
  refine ⟨by rw [next_gen_count_eq]; exact hc, fun x y hx hy => alive_next_gen_of_zero s hc x y hx hy,
    ?_, ?_⟩
  · obtain ⟨a1, a2⟩ := seed_points_lt_of_zero s hc 0 (by decide)
    obtain ⟨b1, b2⟩ := seed_points_lt_of_zero s hc 1 (by decide)
    exact live_count_two _ _ _ _ _ _ (seed_points_ne_of_zero s hc) a1 a2 b1 b2
      ((alive_next_gen_of_zero s hc _ _ a1 a2).2 ⟨0, by decide, rfl, rfl⟩)
      ((alive_next_gen_of_zero s hc _ _ b1 b2).2 ⟨1, by decide, rfl, rfl⟩)
  · have := live_count_le (next_gen s) (next_gen s).gen
      ((List.range 16).map (fun i => ((next_gen s).seed_x i, (next_gen s).seed_y i)))
      (by
        intro x y hx hy ha
        obtain ⟨i, hi, e1, e2⟩ := (alive_next_gen_of_zero s hc x y hx hy).1 ha
        rw [List.mem_map]
        exact ⟨i, List.mem_range.2 hi, by rw [e1, e2]⟩)
    simpa using this

set_option maxRecDepth 100000 in
theorem init_alt_count : rule_count (init env_alt) = 0 := by decide!

set_option maxRecDepth 100000 in
theorem init_alt_seeded :
    live_count (seeded (stepped (init env_alt))) (seeded (stepped (init env_alt))).gen = 2 := by
  decide!

set_option maxRecDepth 100000 in
theorem init_birth0_count : rule_count (init_birth0 env0) ≠ 0 := by decide!

set_option maxRecDepth 100000 in
theorem init_birth0_stepped :
    live_count (stepped (init_birth0 env0)) (stepped (init_birth0 env0)).gen = 256 := by
  decide!

set_option maxRecDepth 100000 in
theorem init_alt_empty : live_count (init env_alt) (init env_alt).gen = 0 := by decide!

set_option maxRecDepth 100000 in
theorem init_birth0_empty : live_count (init_birth0 env0) (init_birth0 env0).gen = 0 := by
  decide!

/-- C5 as stated fails twice: from the empty start-up grid, draws that send the
walk back and forth between `(0, 0)` and `(1, 1)` leave 2 live cells, not 16;
and with `birth_min = 0` every cell of the empty grid is born, 256 live cells,
without any re-seeding. -/
theorem reseed_not_sixteen :
    (live_count (init env_alt) (init env_alt).gen = 0 ∧
      live_count (next_gen (init env_alt)) (next_gen (init env_alt)).gen = 2) ∧
    (live_count (init_birth0 env0) (init_birth0 env0).gen = 0 ∧
      live_count (next_gen (init_birth0 env0)) (next_gen (init_birth0 env0)).gen = 256) := by
  refine ⟨⟨init_alt_empty, ?_⟩, ⟨init_birth0_empty, ?_⟩⟩
  · rw [live_count_of_frame (frame_next_gen_of_zero _ init_alt_count)]
    exact init_alt_seeded
  · rw [live_count_of_frame (frame_next_gen_of_count _ init_birth0_count)]
    exact init_birth0_stepped

/-- An instance of C5 (amended) on the empty start-up grid. -/
theorem extinct_reseeds_witness :
    (next_gen_loop (init env_alt)).2 = 0 ∧
    (alive (next_gen (init env_alt)) 1 1 (next_gen (init env_alt)).gen = true ↔
      ∃ i, i < 16 ∧ 1 = (next_gen (init env_alt)).seed_x i ∧
        1 = (next_gen (init env_alt)).seed_y i) ∧
    2 ≤ live_count (next_gen (init env_alt)) (next_gen (init env_alt)).gen ∧
    live_count (next_gen (init env_alt)) (next_gen (init env_alt)).gen ≤ 16 :=
  have h := extinct_reseeds (init env_alt) (by decide) init_alt_empty (by decide)
  ⟨h.1, h.2.1 1 1 (by decide) (by decide), h.2.2⟩

/-! ## The seeder -/

theorem seeded_seed_x (s : State) (i : Nat) (hi : i < 16) :
    (seeded s).seed_x i = (walk s.env.rand s.drawn i).1 := by
  have hi' : i ≤ 15 := by omega
  simp only [seeded, walked, hi', if_true]

theorem seeded_seed_y (s : State) (i : Nat) (hi : i < 16) :
    (seeded s).seed_y i = (walk s.env.rand s.drawn i).2 := by
  have hi' : i ≤ 15 := by omega
  simp only [seeded, walked, hi', if_true]

theorem seeded_states (s : State) (x y g : Nat) :
    (seeded s).states x y g =
      if g = s.gen ∧ seed_hit (seeded s).seed_x (seeded s).seed_y 16 x y = true then 1
      else s.states x y g := rfl

theorem walk_step (r : Nat → Nat) (d i : Nat) :
    ((walk r d (i + 1)).1 = ((walk r d i).1 + 1) % 16 ∨
      (walk r d (i + 1)).1 = ((walk r d i).1 + 15) % 16) ∧
    ((walk r d (i + 1)).2 = ((walk r d i).2 + 1) % 16 ∨
      (walk r d (i + 1)).2 = ((walk r d i).2 + 15) % 16) := by
  simp only [walk, walk_next]
  constructor
  · split
    · exact Or.inl rfl
    · exact Or.inr rfl
  · split
    · exact Or.inl rfl
    · exact Or.inr rfl

/-- C6: for every draws, after `seed()` every seed point has both coordinates
below 16; each point `i` in 1..15 is the point before it moved by +1 or +15
modulo 16 on the x axis and by +1 or +15 modulo 16 on the y axis; every seed
point is alive in the active buffer; every other cell of the active buffer,
and every cell of the other buffer, keeps its value; `gen` is unchanged. -/
theorem seed_walk_additive (s : State) (_hg : s.gen < 2) :
    (∀ i, i < 16 → (seed s).seed_x i < 16 ∧ (seed s).seed_y i < 16) ∧
    (∀ i, 1 ≤ i → i < 16 →
      ((seed s).seed_x i = ((seed s).seed_x (i - 1) + 1) % 16 ∨
        (seed s).seed_x i = ((seed s).seed_x (i - 1) + 15) % 16) ∧
      ((seed s).seed_y i = ((seed s).seed_y (i - 1) + 1) % 16 ∨
        (seed s).seed_y i = ((seed s).seed_y (i - 1) + 15) % 16)) ∧
    (∀ i, i < 16 → alive (seed s) ((seed s).seed_x i) ((seed s).seed_y i) (seed s).gen = true) ∧
    (∀ x y, x < 16 → y < 16 →
      (¬ ∃ i, i < 16 ∧ x = (seed s).seed_x i ∧ y = (seed s).seed_y i) →
      (seed s).states x y (seed s).gen = s.states x y s.gen) ∧
    (∀ x y g, g ≠ s.gen → (seed s).states x y g = s.states x y g) ∧
    (seed s).gen = s.gen := by
  rw [seed_eq]
  have hgen : (seeded s).gen = s.gen := rfl
  refine ⟨?_, ?_, ?_, ?_, ?_, hgen⟩
  · intro i hi
    rw [seeded_seed_x s i hi, seeded_seed_y s i hi]
    exact walk_lt _ _ _
  · intro i h1 hi
    obtain ⟨k, rfl⟩ : ∃ k, i = k + 1 := ⟨i - 1, by omega⟩
    rw [seeded_seed_x s _ hi, seeded_seed_y s _ hi, Nat.add_sub_cancel,
      seeded_seed_x s k (by omega), seeded_seed_y s k (by omega)]
    exact walk_step _ _ _
  · intro i hi
    have hh : seed_hit (seeded s).seed_x (seeded s).seed_y 16 ((seeded s).seed_x i)
        ((seeded s).seed_y i) = true := (seed_hit_iff _ _ _ _ _).2 ⟨i, hi, rfl, rfl⟩
    simp only [alive, seeded_states, hgen, hh, and_self, if_true, decide_eq_true_eq]
    decide
  · intro x y _ _ hno
    have hh : ¬ seed_hit (seeded s).seed_x (seeded s).seed_y 16 x y = true := by
      rw [seed_hit_iff]
      exact hno
    rw [seeded_states, if_neg (fun h => hh h.2), hgen]
  · intro x y g hg
    simp only [seeded_states, hg, false_and, if_false]

set_option maxRecDepth 100000 in
theorem init_alt_cell_unseeded :
    ¬ ∃ i, i < 16 ∧ 2 = (seed (init env_alt)).seed_x i ∧ 3 = (seed (init env_alt)).seed_y i := by
  rw [seed_eq]
  decide!

/-- An instance of C6 from the start-up state: seed point 3, the cell `(2, 3)`
that the walk does not visit, and cell `(0, 0)` of the other buffer. -/
theorem seed_walk_additive_witness :
    ((seed (init env_alt)).seed_x 3 < 16 ∧ (seed (init env_alt)).seed_y 3 < 16) ∧
    (((seed (init env_alt)).seed_x 3 = ((seed (init env_alt)).seed_x (3 - 1) + 1) % 16 ∨
        (seed (init env_alt)).seed_x 3 = ((seed (init env_alt)).seed_x (3 - 1) + 15) % 16) ∧
      ((seed (init env_alt)).seed_y 3 = ((seed (init env_alt)).seed_y (3 - 1) + 1) % 16 ∨
        (seed (init env_alt)).seed_y 3 = ((seed (init env_alt)).seed_y (3 - 1) + 15) % 16)) ∧
    alive (seed (init env_alt)) ((seed (init env_alt)).seed_x 3)
      ((seed (init env_alt)).seed_y 3) (seed (init env_alt)).gen = true ∧
    (seed (init env_alt)).states 2 3 (seed (init env_alt)).gen =
      (init env_alt).states 2 3 (init env_alt).gen ∧
    (seed (init env_alt)).states 0 0 1 = (init env_alt).states 0 0 1 :=
  have h := seed_walk_additive (init env_alt) (by decide)
  ⟨h.1 3 (by decide), h.2.1 3 (by decide) (by decide), h.2.2.1 3 (by decide),
    h.2.2.2.1 2 3 (by decide) (by decide) init_alt_cell_unseeded,
    h.2.2.2.2.1 0 0 1 (by decide)⟩

/-! ## The analog output -/

theorem update_cv_loop_eq (s : State) (n : Nat) :
    forUpTo n update_cv_cell (s, 0) = (s, row_sum s.states s.cv_update_count s.gen n) := by
  induction n with
  | zero => rfl
  | succ n ih =>
    rw [forUpTo_succ, ih]
    rfl

theorem update_cv_eq (s : State) :
    update_cv s =
      emit (.set_cv 0 (((s.env.MAX_LEVEL / MAXX) *
          row_sum s.states (next_row s.cv_update_count) s.gen MAXX : Nat) : Int))
        { s with cv_update_count := next_row s.cv_update_count } := by
  unfold update_cv
  simp only [update_cv_loop_eq]
  rfl

theorem row_sum_eq_countP (s : State) (y g : Nat) (h : ∀ x, x < 16 → s.states x y g ≤ 1)
    (n : Nat) (hn : n ≤ 16) :
    row_sum s.states y g n = (List.range n).countP (fun x => alive s x y g) := by
  induction n with
  | zero => rfl
  | succ n ih =>
    have hle : (List.range n).countP (fun x => alive s x y g) ≤ n := by
      have := List.countP_le_length (fun x => alive s x y g) (l := List.range n)
      simpa using this
    have h1 := h n (by omega)
    rw [row_sum, ih (by omega), List.range_succ n, List.countP_append, List.countP_cons,
      List.countP_nil]
    generalize (List.range n).countP (fun x => alive s x y g) = k at hle ⊢
    by_cases hz : s.states n y g = 0
    · simp only [alive, hz, ne_eq, not_true_eq_false, decide_False, Bool.false_eq_true,
        if_false, Nat.add_zero]
      omega
    · have h2 : s.states n y g = 1 := by omega
      simp only [alive, h2, ne_eq, one_ne_zero, not_false_eq_true, decide_True, if_true,
        Nat.zero_add]
      omega

theorem row_live_le (s : State) (y g : Nat) : row_live s y g ≤ 16 := by
  have := List.countP_le_length (fun x => alive s x y g) (l := List.range 16)
  simpa [row_live] using this

theorem next_row_of_lt (c : Nat) (h : c < 16) : next_row c = (c + 1) % 16 := by
  unfold next_row MAXY
  split <;> omega

/-! ## What each function leaves unchanged -/

theorem controls_of_frame {t u : State} (h : frame t = frame u) : controls t = controls u := by
  have f := frame_fields h
  simp only [controls, f.1, f.2.1, f.2.2.1, f.2.2.2.1, f.2.2.2.2.1, f.2.2.2.2.2.1,
    f.2.2.2.2.2.2.2.1, f.2.2.2.2.2.2.2.2.2.1, f.2.2.2.2.2.2.2.2.2.2.2.2.2.1]

theorem controls_visualize (s : State) : controls (visualize s) = controls s :=
  controls_of_frame (frame_visualize s)

theorem controls_seed (s : State) : controls (seed s) = controls s := by
  rw [seed_eq]
  rfl

theorem controls_next_gen (s : State) : controls (next_gen s) = controls s := by
  rw [next_gen_eq, controls_visualize]
  split <;> rfl

theorem seed_gen (s : State) : (seed s).gen = s.gen := by
  rw [seed_eq]
  rfl

theorem next_states_le (s : State) (h : ∀ x y g, s.states x y g ≤ 1) (x y g : Nat) :
    next_states s x y g ≤ 1 := by
  unfold next_states
  split
  · split <;> omega
  · exact h x y g

theorem seeded_states_le (s : State) (h : ∀ x y g, s.states x y g ≤ 1) (x y g : Nat) :
    (seeded s).states x y g ≤ 1 := by
  show (if _ then 1 else s.states x y g) ≤ 1
  split
  · omega
  · exact h x y g

theorem seed_states_le (s : State) (h : ∀ x y g, s.states x y g ≤ 1) (x y g : Nat) :
    (seed s).states x y g ≤ 1 := by
  rw [seed_eq]
  exact seeded_states_le s h x y g

theorem next_gen_states_le (s : State) (h : ∀ x y g, s.states x y g ≤ 1) (x y g : Nat) :
    (next_gen s).states x y g ≤ 1 := by
  rw [next_gen_eq, visualize_states]
  split
  · exact seeded_states_le _ (next_states_le s h) x y g
  · exact next_states_le s h x y g

/-! ## The invariant -/

theorem inv_of_controls {s t : State} (h : controls t = controls s) (hi : Inv s)
    (hg : t.gen < 2) (hc : ∀ x y g, t.states x y g ≤ 1) : Inv t := by
  simp only [controls, Prod.mk.injEq] at h
  obtain ⟨_, h2, h3, h4, _, h6, h7, h8, _⟩ := h
  exact ⟨hg, by rw [h7]; exact hi.cv_lt, by rw [h8]; exact hi.wave_lt,
    by rw [h2]; exact hi.live_max_le, by rw [h3]; exact hi.birth_min_le,
    by rw [h4]; exact hi.birth_max_le, by rw [h6]; exact hi.wave_repeat_le, hc⟩

theorem inv_init (e : Env) : Inv (init e) :=
  ⟨by simp [init], by simp [init], by simp [init], by simp [init], by simp [init],
    by simp [init], by simp [init, MAX_WAVE_REPEAT], fun _ _ _ => Nat.zero_le 1⟩

theorem inv_visualize (s : State) (h : Inv s) : Inv (visualize s) :=
  inv_of_controls (controls_visualize s) h (by rw [visualize_gen]; exact h.gen_lt)
    (by rw [visualize_states]; exact h.cells_le)

theorem inv_seed (s : State) (h : Inv s) : Inv (seed s) :=
  inv_of_controls (controls_seed s) h (by rw [seed_gen]; exact h.gen_lt)
    (seed_states_le s h.cells_le)

theorem inv_next_gen (s : State) (h : Inv s) : Inv (next_gen s) :=
  inv_of_controls (controls_next_gen s) h (by rw [next_gen_gen]; exact other_lt _)
    (next_gen_states_le s h.cells_le)

theorem inv_update_cv (s : State) (h : Inv s) : Inv (update_cv s) := by
  rw [update_cv_eq]
  exact ⟨h.gen_lt, by
      show next_row s.cv_update_count < 16
      rw [next_row_of_lt _ h.cv_lt]
      exact Nat.mod_lt _ (by decide), h.wave_lt, h.live_max_le, h.birth_min_le, h.birth_max_le,
    h.wave_repeat_le, h.cells_le⟩

theorem inv_reset_wave (t : State) (hg : t.gen < 2) (hcv : t.cv_update_count < 16)
    (h2 : t.live_max ≤ 8) (h3 : t.birth_min ≤ 8) (h4 : t.birth_max ≤ 8)
    (h6 : t.wave_repeat ≤ MAX_WAVE_REPEAT) (hc : ∀ x y g, t.states x y g ≤ 1) :
    Inv { t with wave_count := 0 } :=
  ⟨hg, hcv, Nat.zero_lt_succ 31, h2, h3, h4, h6, hc⟩

theorem inv_play (s : State) (h : Inv s) : Inv (play s) := by
  unfold play
  apply inv_update_cv
  have hw := h.wave_lt
  have hr := h.wave_repeat_le
  unfold MAX_WAVE_REPEAT at hr
  split
  · simp only []
    split
    · have hc := controls_next_gen { s with wave_count := (s.wave_count + 1) % 256 }
      simp only [controls, Prod.mk.injEq] at hc
      obtain ⟨_, h2, h3, h4, _, h6, h7, _, _⟩ := hc
      exact inv_reset_wave (next_gen _) (by rw [next_gen_gen]; exact other_lt _)
        (by rw [h7]; exact h.cv_lt) (by rw [h2]; exact h.live_max_le)
        (by rw [h3]; exact h.birth_min_le) (by rw [h4]; exact h.birth_max_le)
        (by rw [h6]; exact h.wave_repeat_le) (next_gen_states_le _ h.cells_le)
    · rename_i hlt
      simp only [ge_iff_le, not_le] at hlt
      exact ⟨h.gen_lt, h.cv_lt, by show (s.wave_count + 1) % 256 < 32; omega,
        h.live_max_le, h.birth_min_le, h.birth_max_le, h.wave_repeat_le, h.cells_le⟩
  · exact h

theorem inv_grid_press (s t : State) (x y pressed : Nat) (h : Inv s)
    (ht : grid_press s x y pressed = some t) : Inv t := by
  unfold grid_press at ht
  split at ht
  · split at ht
    · simp only [Option.some.injEq] at ht
      subst ht
      apply inv_visualize
      refine ⟨h.gen_lt, h.cv_lt, h.wave_lt, h.live_max_le, h.birth_min_le, h.birth_max_le,
        h.wave_repeat_le, ?_⟩
      intro a b g
      show write3 s.states x y s.gen 1 a b g ≤ 1
      unfold write3
      split
      · omega
      · exact h.cells_le a b g
    · exact Option.noConfusion ht
  · simp only [Option.some.injEq] at ht
    subst ht
    exact inv_visualize s h

theorem inv_arc_turn (s : State) (enc dir : Nat) (h : Inv s) : Inv (arc_turn s enc dir) := by
  have h1 := h.live_max_le
  have h2 := h.birth_min_le
  have h3 := h.birth_max_le
  have h4 := h.wave_repeat_le
  unfold arc_turn
  apply inv_visualize
  simp only []
  split
  · split
    · exact ⟨h.gen_lt, h.cv_lt, h.wave_lt, by show s.live_max + 1 ≤ 8; omega, h2, h3, h4,
        h.cells_le⟩
    · split
      · exact ⟨h.gen_lt, h.cv_lt, h.wave_lt, by show s.live_max - 1 ≤ 8; omega, h2, h3, h4,
          h.cells_le⟩
      · exact h
  · split
    · split
      · exact ⟨h.gen_lt, h.cv_lt, h.wave_lt, h1, by show s.birth_min + 1 ≤ 8; omega, h3, h4,
          h.cells_le⟩
      · split
        · exact ⟨h.gen_lt, h.cv_lt, h.wave_lt, h1, by show s.birth_min - 1 ≤ 8; omega, h3, h4,
            h.cells_le⟩
        · exact h
    · split
      · split
        · exact ⟨h.gen_lt, h.cv_lt, h.wave_lt, h1, h2, by show s.birth_max + 1 ≤ 8; omega, h4,
            h.cells_le⟩
        · split
          · exact ⟨h.gen_lt, h.cv_lt, h.wave_lt, h1, h2, by show s.birth_max - 1 ≤ 8; omega,
              h4, h.cells_le⟩
          · exact h
      · split
        · apply inv_seed
          split
          · exact ⟨h.gen_lt, h.cv_lt, h.wave_lt, h1, h2, h3, by
              show s.wave_repeat + 1 ≤ MAX_WAVE_REPEAT
              omega, h.cells_le⟩
          · split
            · exact ⟨h.gen_lt, h.cv_lt, h.wave_lt, h1, h2, h3, by
                show s.wave_repeat - 1 ≤ MAX_WAVE_REPEAT
                omega, h.cells_le⟩
            · exact h
        · exact h

theorem inv_process_event (s t : State) (ev : Event) (h : Inv s)
    (ht : process_event s ev = some t) : Inv t := by
  cases ev with
  | tick =>
    simp only [process_event, Option.some.injEq] at ht
    subst ht
    exact inv_play s h
  | key x y pressed => exact inv_grid_press s t x y pressed h ht
  | turn enc dir =>
    simp only [process_event, Option.some.injEq] at ht
    subst ht
    exact inv_arc_turn s enc dir h

theorem inv_of_reachable (e : Env) (s : State) (h : Reachable e s) : Inv s := by
  induction h with
  | start => exact inv_init e
  | step s t ev _ ht ih => exact inv_process_event s t ev ih ht

/-! ## The encoders -/

theorem param_of_controls {t u : State} (h : controls t = controls u) (enc : Nat) :
    param enc t = param enc u := by
  simp only [controls, Prod.mk.injEq] at h
  obtain ⟨_, h2, h3, h4, _, h6, _, _, _⟩ := h
  simp only [param, h2, h3, h4, h6]

/-- The effect of `arc_turn(enc, dir)` on the parameter it addresses. -/
theorem arc_turn_param (s : State) (enc dir : Nat) (henc : enc < 4) :
    param enc (arc_turn s enc dir) =
      if dir ≠ 0 ∧ param enc s < bound enc then param enc s + 1
      else if dir = 0 ∧ param enc s > 0 then param enc s - 1 else param enc s := by
  unfold arc_turn
  rw [param_of_controls (controls_visualize _)]
  have h : enc = 0 ∨ enc = 1 ∨ enc = 2 ∨ enc = 3 := by omega
  rcases h with rfl | rfl | rfl | rfl
  · simp only [if_true, param, bound, OfNat.zero_ne_ofNat, if_false]
    split
    · rfl
    · split <;> rfl
  · simp only [if_true, param, bound, OfNat.one_ne_ofNat, one_ne_zero, if_false]
    split
    · rfl
    · split <;> rfl
  · simp only [if_true, param, bound, OfNat.ofNat_ne_zero, OfNat.ofNat_ne_one, if_false]
    have : ¬ (2 = 3) := by decide
    simp only [this, if_false]
    split
    · rfl
    · split <;> rfl
  · simp only [if_true, OfNat.ofNat_ne_zero, OfNat.ofNat_ne_one, if_false]
    have : ¬ (3 = 2) := by decide
    simp only [this, if_false]
    rw [param_of_controls (controls_seed _)]
    simp only [param, bound, OfNat.ofNat_ne_zero, OfNat.ofNat_ne_one, this, if_false, if_true]
    split
    · rfl
    · split <;> rfl

/-- A call `arc_turn(enc, dir)` with `enc >= 4` changes no parameter. -/
theorem arc_turn_other (s : State) (enc dir : Nat) (henc : 4 ≤ enc) :
    controls (arc_turn s enc dir) = controls s := by
  unfold arc_turn
  rw [controls_visualize]
  have h0 : ¬ enc = 0 := by omega
  have h1 : ¬ enc = 1 := by omega
  have h2 : ¬ enc = 2 := by omega
  have h3 : ¬ enc = 3 := by omega
  simp only [h0, h1, h2, h3, if_false]

theorem inv_foldl_arc_turn (turns : List (Nat × Nat)) (s : State) (h : Inv s) :
    Inv (turns.foldl (fun s t => arc_turn s t.1 t.2) s) := by
  induction turns generalizing s with
  | nil => exact h
  | cons t ts ih =>
    rw [List.foldl_cons]
    exact ih _ (inv_arc_turn s t.1 t.2 h)

theorem inv_turned (e : Env) (turns : List (Nat × Nat)) : Inv (turned e turns) :=
  inv_foldl_arc_turn turns _ (inv_init e)

theorem param_le_bound (s : State) (h : Inv s) (enc : Nat) (henc : enc < 4) :
    param enc s ≤ bound enc := by
  have h1 := h.live_max_le
  have h2 := h.birth_min_le
  have h3 := h.birth_max_le
  have h4 := h.wave_repeat_le
  have hc : enc = 0 ∨ enc = 1 ∨ enc = 2 ∨ enc = 3 := by omega
  rcases hc with rfl | rfl | rfl | rfl
  · exact h1
  · exact h2
  · exact h3
  · exact h4

/-- C8: starting from the start-up values, after any sequence of calls
`arc_turn(enc, dir)`, `live_max`, `birth_min` and `birth_max` are at most 8 and
`wave_repeat` is at most `MAX_WAVE_REPEAT` = 32; a further call
`arc_turn(enc, dir)` with `enc < 4` leaves the addressed parameter unchanged
when `dir != 0` and it is at its upper bound, and when `dir = 0` and it is 0, and
otherwise adds 1 (`dir != 0`) or subtracts 1 (`dir = 0`); with `enc >= 4` no
parameter changes. -/
theorem arc_turn_clamps (e : Env) (turns : List (Nat × Nat)) (enc dir : Nat) :
    ((turned e turns).live_max ≤ 8 ∧ (turned e turns).birth_min ≤ 8 ∧
      (turned e turns).birth_max ≤ 8 ∧ (turned e turns).wave_repeat ≤ MAX_WAVE_REPEAT) ∧
    (enc < 4 →
      (dir ≠ 0 → param enc (turned e turns) = bound enc →
        param enc (arc_turn (turned e turns) enc dir) = param enc (turned e turns)) ∧
      (dir = 0 → param enc (turned e turns) = 0 →
        param enc (arc_turn (turned e turns) enc dir) = param enc (turned e turns)) ∧
      (dir ≠ 0 → param enc (turned e turns) < bound enc →
        param enc (arc_turn (turned e turns) enc dir) = param enc (turned e turns) + 1) ∧
      (dir = 0 → 0 < param enc (turned e turns) →
        param enc (arc_turn (turned e turns) enc dir) + 1 = param enc (turned e turns))) ∧
    (4 ≤ enc → ∀ k, param k (arc_turn (turned e turns) enc dir) = param k (turned e turns)) := by
  have hi := inv_turned e turns
  refine ⟨⟨hi.live_max_le, hi.birth_min_le, hi.birth_max_le, hi.wave_repeat_le⟩, ?_, ?_⟩
  · intro henc
    have hp := arc_turn_param (turned e turns) enc dir henc
    refine ⟨?_, ?_, ?_, ?_⟩
    · intro hd hb
      rw [hp, if_neg (by omega), if_neg (by omega)]
    · intro hd hz
      rw [hp, if_neg (by omega), if_neg (by omega)]
    · intro hd hlt
      rw [hp, if_pos ⟨hd, hlt⟩]
    · intro hd hpos
      rw [hp, if_neg (by omega), if_pos ⟨hd, hpos⟩]
      omega
  · intro henc k
    exact param_of_controls (arc_turn_other _ enc dir henc) k

set_option maxRecDepth 1000000 in
theorem turned_up_live_max :
    param 0 (turned env0 [(0, 1), (0, 1), (0, 1), (0, 1), (0, 1), (0, 1)]) = bound 0 := by
  decide!

set_option maxRecDepth 1000000 in
theorem turned_down_birth_min : param 1 (turned env0 [(1, 0), (1, 0)]) = 0 := by
  decide!

/-- An instance of C8: from start-up, six increments of encoder 0 leave
`live_max` at 8, and a seventh changes nothing; after two decrements of
encoder 1, `birth_min` is 0 and a third changes nothing. -/
theorem arc_turn_clamps_witness :
    (param 0 (arc_turn (turned env0 [(0, 1), (0, 1), (0, 1), (0, 1), (0, 1), (0, 1)]) 0 1) =
      param 0 (turned env0 [(0, 1), (0, 1), (0, 1), (0, 1), (0, 1), (0, 1)])) ∧
    (param 1 (arc_turn (turned env0 [(1, 0), (1, 0)]) 1 0) =
      param 1 (turned env0 [(1, 0), (1, 0)])) :=
  ⟨((arc_turn_clamps env0 [(0, 1), (0, 1), (0, 1), (0, 1), (0, 1), (0, 1)] 0 1).2.1
      (by decide)).1 (by decide) turned_up_live_max,
    ((arc_turn_clamps env0 [(1, 0), (1, 0)] 1 0).2.1 (by decide)).2.1 (by decide)
      turned_down_birth_min⟩

/-! ## The wave scheduler -/

theorem update_cv_fields (t : State) :
    (update_cv t).cv_update_count = next_row t.cv_update_count ∧
    (update_cv t).wave_repeat = t.wave_repeat ∧ (update_cv t).wave_count = t.wave_count ∧
    (update_cv t).gen = t.gen ∧ (update_cv t).states = t.states := by
  rw [update_cv_eq]
  exact ⟨rfl, rfl, rfl, rfl, rfl⟩

/-- The state of `play()` before its call of `update_cv()`, when the guards
hold. -/
theorem play_of_advances (s : State) (h : play_advances s) :
    play s = update_cv
      { next_gen { s with wave_count := (s.wave_count + 1) % 256 } with wave_count := 0 } := by
  unfold play
  simp only []
  rw [if_pos h.1, if_pos h.2]

theorem play_of_not_advances (s : State) (h : ¬ play_advances s) :
    play s = update_cv
      (if s.cv_update_count = 0 then { s with wave_count := (s.wave_count + 1) % 256 }
        else s) := by
  unfold play
  simp only []
  by_cases h0 : s.cv_update_count = 0
  · rw [if_pos h0, if_pos h0, if_neg (fun h1 => h ⟨h0, h1⟩)]
  · rw [if_neg h0, if_neg h0]

theorem reset_wave_fields (t : State) :
    ({ t with wave_count := 0 } : State).cv_update_count = t.cv_update_count ∧
    ({ t with wave_count := 0 } : State).wave_repeat = t.wave_repeat ∧
    ({ t with wave_count := 0 } : State).wave_count = 0 ∧
    ({ t with wave_count := 0 } : State).gen = t.gen :=
  ⟨rfl, rfl, rfl, rfl⟩

/-- The timing variables after one `play()`. -/
theorem play_timing (s : State) :
    (play s).cv_update_count = next_row s.cv_update_count ∧
    (play s).wave_repeat = s.wave_repeat ∧
    (play s).wave_count =
      (if s.cv_update_count = 0 then
        (if (s.wave_count + 1) % 256 ≥ s.wave_repeat then 0 else (s.wave_count + 1) % 256)
      else s.wave_count) := by
  by_cases h : play_advances s
  · rw [play_of_advances s h]
    obtain ⟨u1, u2, u3, _, _⟩ := update_cv_fields
      { next_gen { s with wave_count := (s.wave_count + 1) % 256 } with wave_count := 0 }
    obtain ⟨r1, r2, r3, _⟩ :=
      reset_wave_fields (next_gen { s with wave_count := (s.wave_count + 1) % 256 })
    have hc := controls_next_gen { s with wave_count := (s.wave_count + 1) % 256 }
    simp only [controls, Prod.mk.injEq] at hc
    obtain ⟨_, _, _, _, _, h6, h7, _, _⟩ := hc
    rw [u1, u2, u3, r1, r2, r3, h6, h7, if_pos h.1, if_pos h.2]
    exact ⟨rfl, rfl, rfl⟩
  · rw [play_of_not_advances s h]
    obtain ⟨u1, u2, u3, _, _⟩ := update_cv_fields
      (if s.cv_update_count = 0 then { s with wave_count := (s.wave_count + 1) % 256 } else s)
    rw [u1, u2, u3]
    by_cases h0 : s.cv_update_count = 0
    · simp only [h0, if_true]
      rw [if_neg (fun h1 => h ⟨h0, h1⟩)]
      refine ⟨?_, ?_, ?_⟩ <;> first | rfl | trivial
    · simp only [h0, if_false]
      refine ⟨?_, ?_, ?_⟩ <;> first | rfl | trivial

/-- A tick calls `next_gen()` exactly when it flips `gen`. -/
theorem play_gen (s : State) :
    (play s).gen = if play_advances s then other s.gen else s.gen := by
  by_cases h : play_advances s
  · rw [play_of_advances s h, if_pos h]
    obtain ⟨_, _, _, u4, _⟩ := update_cv_fields
      { next_gen { s with wave_count := (s.wave_count + 1) % 256 } with wave_count := 0 }
    obtain ⟨_, _, _, r4⟩ :=
      reset_wave_fields (next_gen { s with wave_count := (s.wave_count + 1) % 256 })
    rw [u4, r4, next_gen_gen]
  · rw [play_of_not_advances s h, if_neg h]
    obtain ⟨_, _, _, u4, _⟩ := update_cv_fields
      (if s.cv_update_count = 0 then { s with wave_count := (s.wave_count + 1) % 256 } else s)
    rw [u4]
    split <;> rfl

/-- The timing variables `k` ticks after a tick that called `next_gen()`,
up to the next such tick. -/
theorem play_iterate_timing (s : State) (hr : s.wave_repeat ≤ 32) (hadv : play_advances s)
    (k : Nat) (h1 : 1 ≤ k) (hk : k ≤ 16 * max s.wave_repeat 1) :
    (play^[k] s).cv_update_count = k % 16 ∧ (play^[k] s).wave_count = (k - 1) / 16 ∧
    (play^[k] s).wave_repeat = s.wave_repeat := by
  obtain ⟨hcv, hwc⟩ := hadv
  induction k with
  | zero => omega
  | succ k ih =>
    rw [Function.iterate_succ_apply']
    obtain ⟨p1, p2, p3⟩ := play_timing (play^[k] s)
    rw [p1, p2, p3]
    by_cases hk0 : k = 0
    · subst hk0
      simp only [Function.iterate_zero, id_eq, hcv, if_true, hwc, next_row, MAXY]
      decide
    · obtain ⟨i1, i2, i3⟩ := ih (by omega) (by omega)
      rw [i1, i2, i3, next_row_of_lt _ (Nat.mod_lt _ (by decide))]
      refine ⟨by omega, ?_, rfl⟩
      have hm : max s.wave_repeat 1 = s.wave_repeat ∨ s.wave_repeat = 0 := by
        rcases Nat.eq_zero_or_pos s.wave_repeat with h | h
        · exact Or.inr h
        · exact Or.inl (Nat.max_eq_left h)
      split
      · split
        · rcases hm with hm | hm
          · rw [hm] at hk
            omega
          · rw [hm] at hk
            simp only [Nat.zero_max] at hk
            omega
        · omega
      · omega

theorem play_advances_iff_gen (s : State) : play_advances s ↔ (play s).gen ≠ s.gen := by
  rw [play_gen]
  constructor
  · intro h
    rw [if_pos h]
    exact other_ne _
  · intro h
    by_contra hn
    rw [if_neg hn] at h
    exact h rfl

/-- From a tick that called `next_gen()`, the next tick that does so is
the one `16 * max wave_repeat 1` ticks later. -/
theorem play_next_advance (s : State) (hr : s.wave_repeat ≤ 32) (hadv : play_advances s) :
    (∀ k, 1 ≤ k → k < 16 * max s.wave_repeat 1 → ¬ play_advances (play^[k] s)) ∧
    play_advances (play^[16 * max s.wave_repeat 1] s) := by
  have hm : max s.wave_repeat 1 = s.wave_repeat ∨
      (s.wave_repeat = 0 ∧ max s.wave_repeat 1 = 1) := by
    rcases Nat.eq_zero_or_pos s.wave_repeat with h | h
    · exact Or.inr ⟨h, by rw [h]; rfl⟩
    · exact Or.inl (Nat.max_eq_left h)
  constructor
  · intro k h1 hk
    obtain ⟨i1, i2, i3⟩ := play_iterate_timing s hr hadv k h1 (by omega)
    unfold play_advances
    rw [i1, i2, i3]
    rcases hm with hm | ⟨h0, hm⟩
    · rw [hm] at hk
      omega
    · rw [hm] at hk
      omega
  · obtain ⟨i1, i2, i3⟩ := play_iterate_timing s hr hadv (16 * max s.wave_repeat 1)
      (by rcases hm with hm | ⟨h0, hm⟩ <;> rw [hm] <;> omega) (Nat.le_refl _)
    unfold play_advances
    rw [i1, i2, i3]
    rcases hm with hm | ⟨h0, hm⟩
    · rw [hm]
      have : 1 ≤ s.wave_repeat := by
        rcases Nat.eq_zero_or_pos s.wave_repeat with h | h
        · rw [h] at hm
          exact absurd hm (by decide)
        · exact h
      omega
    · rw [hm]
      omega

theorem reachable_foldl_arc_turn (e : Env) (turns : List (Nat × Nat)) (s : State)
    (h : Reachable e s) : Reachable e (turns.foldl (fun s t => arc_turn s t.1 t.2) s) := by
  induction turns generalizing s with
  | nil => exact h
  | cons t ts ih =>
    rw [List.foldl_cons]
    exact ih _ (Reachable.step s _ (.turn t.1 t.2) h rfl)

theorem reachable_turned (e : Env) (turns : List (Nat × Nat)) : Reachable e (turned e turns) :=
  reachable_foldl_arc_turn e turns _ Reachable.start

set_option maxRecDepth 1000000 in
theorem turned_down_timing :
    (turned_down env0).wave_repeat = 0 ∧ (turned_down env0).cv_update_count = 0 ∧
    (turned_down env0).wave_count = 0 := by
  decide!

/-- C7 (amended): in a reachable state with `wave_repeat = R`, a tick calls
`next_gen()` exactly when it flips `gen`; after a tick that calls
`next_gen()`, and with `R` held fixed, none of the next `16 * R - 1` ticks calls
it and the tick `16 * R` ticks later does, for every `R >= 1`; for `R = 0` the
spacing is 16 ticks, as for `R = 1`.  (`max R 1` is `R` for `R >= 1` and 1 for
`R = 0`.) -/
theorem wave_gating (e : Env) (s : State) (hs : Reachable e s) (R : Nat)
    (hR : s.wave_repeat = R) (hadv : play_advances s) :
    (∀ t : State, play_advances t ↔ (play t).gen ≠ t.gen) ∧
    (∀ k, 1 ≤ k → k < 16 * max R 1 → ¬ play_advances (play^[k] s)) ∧
    play_advances (play^[16 * max R 1] s) ∧
    (∀ k, 1 ≤ k → k ≤ 16 * max R 1 → (play^[k] s).wave_repeat = R) := by
  have hi := inv_of_reachable e s hs
  have hr : s.wave_repeat ≤ 32 := hi.wave_repeat_le
  subst hR
  obtain ⟨h1, h2⟩ := play_next_advance s hr hadv
  exact ⟨play_advances_iff_gen, h1, h2,
    fun k hk1 hk => (play_iterate_timing s hr hadv k hk1 hk).2.2⟩

/-- C7 as stated fails for `R = 0`: after 32 decrements of encoder 3
`wave_repeat` is 0, the first tick calls `next_gen()`, the next 15 ticks do not,
and the 16th does; the calls are 16 ticks apart, not `16 * 0`. -/
theorem wave_gating_zero :
    Reachable env0 (turned_down env0) ∧ (turned_down env0).wave_repeat = 0 ∧
    play_advances (turned_down env0) ∧
    (∀ k, 1 ≤ k → k < 16 → ¬ play_advances (play^[k] (turned_down env0))) ∧
    play_advances (play^[16] (turned_down env0)) := by
  obtain ⟨t1, t2, t3⟩ := turned_down_timing
  have hadv : play_advances (turned_down env0) := by
    unfold play_advances
    rw [t1, t2, t3]
    decide
  obtain ⟨h1, h2⟩ := play_next_advance (turned_down env0) (by rw [t1]; decide) hadv
  rw [t1] at h1 h2
  exact ⟨reachable_turned _ _, t1, hadv, h1, h2⟩

set_option maxRecDepth 1000000 in
theorem turned_to_one_timing :
    (turned_to_one env0).wave_repeat = 1 ∧ play_advances (turned_to_one env0) := by
  decide!

/-- An instance of C7 (amended) with `R = 1`: after 31 decrements of encoder 3
the first tick calls `next_gen()`, the tick 5 ticks later does not, and the tick
16 ticks later does. -/
theorem wave_gating_witness :
    ¬ play_advances (play^[5] (turned_to_one env0)) ∧
    play_advances (play^[16 * max 1 1] (turned_to_one env0)) :=
  have h := wave_gating env0 (turned_to_one env0) (reachable_turned _ _) 1
    turned_to_one_timing.1 turned_to_one_timing.2
  ⟨h.2.1 5 (by decide) (by decide), h.2.2.1⟩

/-! ## The ring indicators -/

theorem arc_led_emit_set (r' p' l : Int) (u : State) (r p : Int) :
    arc_led (emit (.set_arc_led r' p' l) u).out r p =
      if r' = r ∧ p' = p then l else arc_led u.out r p := rfl

theorem arc_led_forUpTo_indicator (ring lo : Int) (t : State) (n : Nat) (r p : Int) :
    arc_led (forUpTo n (fun k s => emit (.set_arc_led ring (lo + (k : Int)) 15) s) t).out r p =
      if r = ring ∧ lo ≤ p ∧ p < lo + (n : Int) then 15 else arc_led t.out r p := by
  induction n with
  | zero =>
    rw [forUpTo_zero, if_neg]
    intro h
    simp only [Nat.cast_zero, add_zero] at h
    omega
  | succ n ih =>
    rw [forUpTo_succ, arc_led_emit_set, ih]
    by_cases h1 : ring = r ∧ lo + (n : Int) = p
    · rw [if_pos h1, if_pos]
      push_cast
      omega
    · rw [if_neg h1]
      apply if_congr _ rfl rfl
      push_cast
      constructor
      · intro h
        omega
      · intro h
        refine ⟨h.1, h.2.1, ?_⟩
        by_contra h4
        apply h1
        omega

/-- The LEDs after one indicator line of `visualize()`. -/
theorem arc_led_indicator (ring : Int) (guard value scale : Nat) (t : State) (r p : Int) :
    arc_led (visualize_indicator ring guard value scale t).out r p =
      if guard ≠ 0 ∧ r = ring ∧ ((value : Int) - 1) * (scale : Int) ≤ p ∧
          p < (value : Int) * (scale : Int) then 15
      else arc_led t.out r p := by
  unfold visualize_indicator
  by_cases hg : guard ≠ 0
  · rw [if_pos hg]
    unfold forFromTo
    rw [arc_led_forUpTo_indicator]
    apply if_congr _ rfl rfl
    constructor
    · intro h
      refine ⟨hg, h.1, h.2.1, ?_⟩
      omega
    · intro h
      refine ⟨h.2.1, h.2.2.1, ?_⟩
      omega
  · rw [if_neg hg, if_neg (fun h => hg h.1)]

/-- The cell pass of `visualize()` sets no ring LED to the indicator level. -/
theorem arc_led_arc_cells (t : State) (r p : Int) :
    arc_led (visualize_arc_cells t).out r p ≠ 15 := by
  have key : ∀ u : State, (∀ r p, arc_led u.out r p ≠ 15) →
      ∀ x y, ∀ r p, arc_led (visualize_arc_cell x y u).out r p ≠ 15 := by
    intro u hu x y r p
    unfold visualize_arc_cell
    simp only []
    rw [arc_led_emit_set]
    split
    · split <;> decide
    · exact hu r p
  unfold visualize_arc_cells
  simp only []
  apply forUpTo_inv (fun u : State => ∀ r p, arc_led u.out r p ≠ 15)
    (fun x s => forUpTo 16 (fun y s => visualize_arc_cell x y s) s)
  · intro x u hu
    exact forUpTo_inv (fun u : State => ∀ r p, arc_led u.out r p ≠ 15) _
      (fun y v hv => key v hv x y) 16 u hu
  · intro r p
    simp only [emit, arc_led]
    decide

theorem arc_led_emit_refresh (u : State) (r p : Int) :
    arc_led (emit .refresh_arc u).out r p = arc_led u.out r p := rfl

theorem visualize_indicators_eq (t : State) :
    visualize_indicators t =
      visualize_indicator 3 t.birth_max t.wave_repeat (64 / MAX_WAVE_REPEAT)
        (visualize_indicator 2 t.birth_max t.birth_max 8
          (visualize_indicator 1 t.birth_min t.birth_min 8
            (visualize_indicator 0 t.live_max t.live_max 8 t))) := by
  have e1 := frame_fields (frame_visualize_indicator 0 t.live_max t.live_max 8 t)
  have e2 := frame_fields (frame_visualize_indicator 1 t.birth_min t.birth_min 8
    (visualize_indicator 0 t.live_max t.live_max 8 t))
  have e3 := frame_fields (frame_visualize_indicator 2 t.birth_max t.birth_max 8
    (visualize_indicator 1 t.birth_min t.birth_min 8
      (visualize_indicator 0 t.live_max t.live_max 8 t)))
  unfold visualize_indicators
  simp only []
  rw [e1.2.2.1, e2.2.2.2.1, e1.2.2.2.1, e3.2.2.2.1, e2.2.2.2.1, e1.2.2.2.1, e3.2.2.2.2.2.1,
    e2.2.2.2.2.2.1, e1.2.2.2.2.2.1]

/-- The ring LEDs at the indicator level after `visualize()`, for the first
three rings. -/
theorem arc_led_visualize (s : State) (p : Int) :
    (arc_led (visualize s).out 0 p = 15 ↔
      s.live_max ≠ 0 ∧ ((s.live_max : Int) - 1) * 8 ≤ p ∧ p < (s.live_max : Int) * 8) ∧
    (arc_led (visualize s).out 1 p = 15 ↔
      s.birth_min ≠ 0 ∧ ((s.birth_min : Int) - 1) * 8 ≤ p ∧ p < (s.birth_min : Int) * 8) ∧
    (arc_led (visualize s).out 2 p = 15 ↔
      s.birth_max ≠ 0 ∧ ((s.birth_max : Int) - 1) * 8 ≤ p ∧ p < (s.birth_max : Int) * 8) := by
  have hf : frame (visualize_arc_cells (visualize_grid s)) = frame s := by
    rw [frame_visualize_arc_cells, frame_visualize_grid]
  have hc := arc_led_arc_cells (visualize_grid s)
  unfold visualize
  rw [arc_led_emit_refresh, arc_led_emit_refresh, arc_led_emit_refresh]
  generalize visualize_arc_cells (visualize_grid s) = t at hf hc
  have e0 := frame_fields hf
  rw [visualize_indicators_eq]
  simp only [arc_led_indicator, e0.2.1, e0.2.2.1, e0.2.2.2.1, e0.2.2.2.2.2.1]
  have h0 := hc 0 p
  have h1 := hc 1 p
  have h2 := hc 2 p
  refine ⟨?_, ?_, ?_⟩
  · simp [h0]
  · simp [h1]
  · simp [h2]

/-- C10: after `visualize()`, for each of the pairs (ring 0, `live_max`),
(ring 1, `birth_min`), (ring 2, `birth_max`) with parameter value `p`, the
positions `i` of the ring that hold the indicator level 15 are exactly those
with `(p - 1) * 8 <= i < p * 8` when `p >= 1`, and none when `p = 0`; so
`live_max = 0` lights no indicator position of ring 0 and `live_max = 8` lights
exactly the positions 56..63.  This holds for every state, whatever the value
of `p`. -/
theorem indicator_positions (s : State) (i : Nat) :
    (arc_led (visualize s).out 0 i = 15 ↔
      1 ≤ s.live_max ∧ (s.live_max - 1) * 8 ≤ i ∧ i < s.live_max * 8) ∧
    (arc_led (visualize s).out 1 i = 15 ↔
      1 ≤ s.birth_min ∧ (s.birth_min - 1) * 8 ≤ i ∧ i < s.birth_min * 8) ∧
    (arc_led (visualize s).out 2 i = 15 ↔
      1 ≤ s.birth_max ∧ (s.birth_max - 1) * 8 ≤ i ∧ i < s.birth_max * 8) ∧
    (s.live_max = 0 → arc_led (visualize s).out 0 i ≠ 15) ∧
    (s.live_max = 8 → (arc_led (visualize s).out 0 i = 15 ↔ 56 ≤ i ∧ i < 64)) := by
  obtain ⟨h0, h1, h2⟩ := arc_led_visualize s (i : Int)
  have g0 : arc_led (visualize s).out 0 i = 15 ↔
      1 ≤ s.live_max ∧ (s.live_max - 1) * 8 ≤ i ∧ i < s.live_max * 8 := by
    rw [h0]
    constructor
    · rintro ⟨a, b, c⟩
      omega
    · rintro ⟨a, b, c⟩
      refine ⟨by omega, by omega, by omega⟩
  refine ⟨g0, ?_, ?_, ?_, ?_⟩
  · rw [h1]
    constructor
    · rintro ⟨a, b, c⟩
      omega
    · rintro ⟨a, b, c⟩
      refine ⟨by omega, by omega, by omega⟩
  · rw [h2]
    constructor
    · rintro ⟨a, b, c⟩
      omega
    · rintro ⟨a, b, c⟩
      refine ⟨by omega, by omega, by omega⟩
  · intro hz
    rw [Ne, g0]
    omega
  · intro h8
    rw [g0, h8]
    omega

/-! ## Runs of events -/

theorem reachable_run (e : Env) (evs : List Event) (s t : State) (h : Reachable e s)
    (ht : run s evs = some t) : Reachable e t := by
  induction evs generalizing s with
  | nil =>
    simp only [run, Option.some.injEq] at ht
    rw [← ht]
    exact h
  | cons ev evs ih =>
    simp only [run, Option.bind_eq_some] at ht
    obtain ⟨u, hu, hrest⟩ := ht
    exact ih u (Reachable.step s u ev h hu) hrest

set_option maxRecDepth 1000000 in
theorem half_row_run : (run (init env0) half_row_keys).isSome = true := by
  decide!

theorem reachable_half_row : Reachable env0 half_row_pressed := by
  apply reachable_run env0 half_row_keys (init env0) _ Reachable.start
  have h := half_row_run
  unfold half_row_pressed
  cases hr : run (init env0) half_row_keys with
  | none =>
    rw [hr] at h
    exact Bool.noConfusion h
  | some t => rfl

set_option maxRecDepth 1000000 in
theorem half_row_live :
    half_row_pressed.env.MAX_LEVEL = 65535 ∧
    row_live half_row_pressed ((half_row_pressed.cv_update_count + 1) % 16)
      half_row_pressed.gen = 8 := by
  decide!

/-! ## The analog level -/

/-- C9: in every reachable state, `update_cv()` advances `cv_update_count` to
`(cv_update_count + 1) mod 16` and then calls `set_cv(0, level)` with
`level = (MAX_LEVEL / 16) * k`, `k` being the number of live cells in the row
with that new index of the active buffer; `level <= MAX_LEVEL`; and for
`MAX_LEVEL = 65535` and `k = 8` the level is 32760. -/
theorem update_cv_level (e : Env) (s : State) (hs : Reachable e s) :
    (update_cv s).cv_update_count = (s.cv_update_count + 1) % 16 ∧
    (update_cv s).out =
      .set_cv 0 (((s.env.MAX_LEVEL / 16) *
        row_live s ((s.cv_update_count + 1) % 16) s.gen : Nat) : Int) :: s.out ∧
    (s.env.MAX_LEVEL / 16) * row_live s ((s.cv_update_count + 1) % 16) s.gen ≤ s.env.MAX_LEVEL ∧
    (s.env.MAX_LEVEL = 65535 → row_live s ((s.cv_update_count + 1) % 16) s.gen = 8 →
      (s.env.MAX_LEVEL / 16) * row_live s ((s.cv_update_count + 1) % 16) s.gen = 32760) := by
  have hi := inv_of_reachable e s hs
  have hc := hi.cv_lt
  have hr : (s.cv_update_count + 1) % 16 < 16 := Nat.mod_lt _ (by decide)
  have hsum : row_sum s.states ((s.cv_update_count + 1) % 16) s.gen 16 =
      row_live s ((s.cv_update_count + 1) % 16) s.gen :=
    row_sum_eq_countP s _ _ (fun x _ => hi.cells_le x _ _) 16 (Nat.le_refl _)
  refine ⟨?_, ?_, ?_, ?_⟩
  · rw [update_cv_eq, next_row_of_lt _ hc]
    rfl
  · rw [update_cv_eq, next_row_of_lt _ hc]
    simp only [emit, MAXX, hsum]
  · calc (s.env.MAX_LEVEL / 16) * row_live s ((s.cv_update_count + 1) % 16) s.gen
        ≤ (s.env.MAX_LEVEL / 16) * 16 := Nat.mul_le_mul_left _ (row_live_le _ _ _)
      _ ≤ s.env.MAX_LEVEL := Nat.div_mul_le_self _ _
  · intro hm hk
    rw [hm, hk]

/-- An instance of C9: after eight key presses in row 1 from start-up (row
counter 0, `MAX_LEVEL = 65535`), `update_cv()` moves to row 1 and the level is
32760. -/
theorem update_cv_level_witness :
    (update_cv half_row_pressed).cv_update_count = (half_row_pressed.cv_update_count + 1) % 16 ∧
    (half_row_pressed.env.MAX_LEVEL / 16) *
      row_live half_row_pressed ((half_row_pressed.cv_update_count + 1) % 16)
        half_row_pressed.gen = 32760 :=
  have h := update_cv_level env0 half_row_pressed reachable_half_row
  ⟨h.1, h.2.2.2 half_row_live.1 half_row_live.2⟩

/-! ## Key presses -/

/-- The result of a key press that writes, and what it leaves unchanged. -/
theorem grid_press_some (s : State) (x y pressed : Nat) (hx : x < 16) (hy : y < 16)
    (hg : s.gen < 2) :
    grid_press s x y pressed =
      some (visualize (if pressed ≠ 0 then { s with states := write3 s.states x y s.gen 1 }
        else s)) := by
  unfold grid_press
  by_cases hp : pressed ≠ 0
  · rw [if_pos hp, if_pos hp, if_pos ⟨hx, hy, hg⟩]
  · rw [if_neg hp, if_neg hp]

/-- C11: for `x, y < 16` (and `gen` in {0, 1}), `grid_press(x, y, pressed)` is
defined; with `pressed != 0` cell `(x, y)` of the active buffer is alive after
it; with `pressed = 0` no cell changes; in both cases every cell that was alive
is still alive, every cell other than `(x, y)` of the active buffer and every
cell of the other buffer keeps its value, and nothing but `states` (and the
record of hardware calls) changes: thresholds, counters, `gen`, the seed
arrays and the number of draws are as before. -/
theorem grid_press_additive (s : State) (x y pressed : Nat) (hx : x < 16) (hy : y < 16)
    (hg : s.gen < 2) :
    ∃ t, grid_press s x y pressed = some t ∧
      (pressed ≠ 0 → alive t x y t.gen = true) ∧
      (pressed = 0 → t.states = s.states) ∧
      (∀ a b g, alive s a b g = true → alive t a b g = true) ∧
      (∀ a b g, ¬ (a = x ∧ b = y ∧ g = s.gen) → t.states a b g = s.states a b g) ∧
      frame t = frame { s with states := t.states } := by
  refine ⟨_, grid_press_some s x y pressed hx hy hg, ?_⟩
  by_cases hp : pressed ≠ 0
  · rw [if_pos hp]
    generalize hu : ({ s with states := write3 s.states x y s.gen 1 } : State) = u
    have hus : u.states = write3 s.states x y s.gen 1 := by rw [← hu]
    have hug : u.gen = s.gen := by rw [← hu]
    have huf : frame u = frame { s with states := u.states } := by rw [← hu]
    have vs := visualize_states u
    have vg := visualize_gen u
    have vf := frame_visualize u
    generalize visualize u = t at vs vg vf
    rw [vs, vf]
    refine ⟨?_, ?_, ?_, ?_, huf⟩
    · intro _
      unfold alive
      rw [vs, vg, hus, hug]
      simp only [write3, and_self, if_true]
      decide
    · intro h0
      exact absurd h0 hp
    · intro a b g ha
      unfold alive at ha ⊢
      rw [vs, hus]
      simp only [write3, decide_eq_true_eq] at ha ⊢
      split
      · decide
      · exact ha
    · intro a b g hn
      rw [hus]
      simp only [write3, hn, if_false]
  · rw [if_neg hp]
    have vs := visualize_states s
    have vf := frame_visualize s
    generalize visualize s = t at vs vf
    rw [vs, vf]
    refine ⟨?_, ?_, ?_, ?_, rfl⟩
    · intro h
      exact absurd h hp
    · intro _
      rfl
    · intro a b g ha
      unfold alive at ha ⊢
      rw [vs]
      exact ha
    · intro a b g _
      rfl

/-- An instance of C11: key `(3, 4)` pressed in the start-up state. -/
theorem grid_press_additive_witness :
    ∃ t, grid_press (init env0) 3 4 1 = some t ∧
      (1 ≠ 0 → alive t 3 4 t.gen = true) ∧
      (1 = 0 → t.states = (init env0).states) ∧
      (∀ a b g, alive (init env0) a b g = true → alive t a b g = true) ∧
      (∀ a b g, ¬ (a = 3 ∧ b = 4 ∧ g = (init env0).gen) →
        t.states a b g = (init env0).states a b g) ∧
      frame t = frame { init env0 with states := t.states } :=
  grid_press_additive (init env0) 3 4 1 (by decide) (by decide) (by decide)

/-! ## Double buffering -/

/-- C12: for `gen` in {0, 1}, `next_gen()` sets `gen` to `1 - gen`; every cell
of the buffer that was active before the call keeps its value, and so does
every cell of any buffer other than the one that is active after the call,
whether the seeder ran or not: all writes go to the new active buffer. -/
theorem next_gen_double_buffer (s : State) (hg : s.gen < 2) :
    (next_gen s).gen = 1 - s.gen ∧
    (∀ x y, (next_gen s).states x y s.gen = s.states x y s.gen) ∧
    (∀ x y g, g ≠ (next_gen s).gen → (next_gen s).states x y g = s.states x y g) := by
  have hgen : (next_gen s).gen = other s.gen := next_gen_gen s
  have hw : ∀ x y g, g ≠ other s.gen → (next_gen s).states x y g = s.states x y g := by
    intro x y g hne
    rw [next_gen_eq, visualize_states]
    have hn : next_states s x y g = s.states x y g := by
      unfold next_states
      rw [if_neg (fun h => hne h.2.2)]
    split
    · rw [seeded_states, if_neg (fun h => hne h.1)]
      exact hn
    · exact hn
  refine ⟨?_, fun x y => hw x y s.gen (other_ne s.gen).symm, ?_⟩
  · rw [hgen]
    unfold other
    split <;> omega
  · intro x y g hne
    rw [hgen] at hne
    exact hw x y g hne

/-- An instance of C12 on the empty start-up grid, where the seeder runs. -/
theorem next_gen_double_buffer_witness :
    (next_gen (init env0)).gen = 1 - (init env0).gen ∧
    (next_gen (init env0)).states 0 0 (init env0).gen = (init env0).states 0 0 (init env0).gen :=
  ⟨(next_gen_double_buffer (init env0) (by decide)).1,
    (next_gen_double_buffer (init env0) (by decide)).2.1 0 0⟩

/-! ## What an encoder turn changes -/

/-- The assignments of `arc_turn(enc, dir)` before `seed()` and `visualize()`:
they change at most the addressed parameter. -/
theorem arc_turn_frame (s : State) (enc dir : Nat) :
    (enc = 0 → ∃ v, frame (arc_turn s enc dir) = frame { s with live_max := v }) ∧
    (enc = 1 → ∃ v, frame (arc_turn s enc dir) = frame { s with birth_min := v }) ∧
    (enc = 2 → ∃ v, frame (arc_turn s enc dir) = frame { s with birth_max := v }) ∧
    (enc = 3 → ∃ v, frame (arc_turn s enc dir) = frame (seeded { s with wave_repeat := v })) ∧
    (4 ≤ enc → frame (arc_turn s enc dir) = frame s) := by
  unfold arc_turn
  rw [frame_visualize]
  refine ⟨?_, ?_, ?_, ?_, ?_⟩
  · intro h
    subst h
    simp only [if_true]
    split
    · exact ⟨_, rfl⟩
    · split
      · exact ⟨_, rfl⟩
      · exact ⟨s.live_max, rfl⟩
  · intro h
    subst h
    simp only [one_ne_zero, if_false, if_true]
    split
    · exact ⟨_, rfl⟩
    · split
      · exact ⟨_, rfl⟩
      · exact ⟨s.birth_min, rfl⟩
  · intro h
    subst h
    have h0 : ¬ (2 = 0) := by decide
    have h1 : ¬ (2 = 1) := by decide
    simp only [h0, h1, if_false, if_true]
    split
    · exact ⟨_, rfl⟩
    · split
      · exact ⟨_, rfl⟩
      · exact ⟨s.birth_max, rfl⟩
  · intro h
    subst h
    have h0 : ¬ (3 = 0) := by decide
    have h1 : ¬ (3 = 1) := by decide
    have h2 : ¬ (3 = 2) := by decide
    simp only [h0, h1, h2, if_false, if_true, seed_eq]
    split
    · exact ⟨_, rfl⟩
    · split
      · exact ⟨_, rfl⟩
      · exact ⟨s.wave_repeat, rfl⟩
  · intro h
    have h0 : ¬ enc = 0 := by omega
    have h1 : ¬ enc = 1 := by omega
    have h2 : ¬ enc = 2 := by omega
    have h3 : ¬ enc = 3 := by omega
    simp only [h0, h1, h2, h3, if_false]

/-- What a state that agrees with `seeded u` up to the record of calls holds:
the walk drawn from the next 32 draws, marked alive in buffer `gen`. -/
theorem seeded_frame_props (t u : State) (h : frame t = frame (seeded u)) :
    t.gen = u.gen ∧ t.drawn = u.drawn + 32 ∧
    (∀ i, i < 16 → t.seed_x i = (walk u.env.rand u.drawn i).1 ∧
      t.seed_y i = (walk u.env.rand u.drawn i).2) ∧
    (∀ i, i < 16 → alive t (t.seed_x i) (t.seed_y i) t.gen = true) ∧
    (∀ x y g, ¬ (g = u.gen ∧ ∃ i, i < 16 ∧ x = t.seed_x i ∧ y = t.seed_y i) →
      t.states x y g = u.states x y g) := by
  have f := frame_fields h
  have hg : t.gen = u.gen := f.2.2.2.2.2.2.1
  have hs : t.states = (seeded u).states := f.2.2.2.2.2.2.2.2.2.2.1
  have hx : t.seed_x = (seeded u).seed_x := f.2.2.2.2.2.2.2.2.2.2.2.1
  have hy : t.seed_y = (seeded u).seed_y := f.2.2.2.2.2.2.2.2.2.2.2.2.1
  have hd : t.drawn = u.drawn + 2 * 15 + 2 := f.2.2.2.2.2.2.2.2.2.2.2.2.2.2
  refine ⟨hg, by omega, ?_, ?_, ?_⟩
  · intro i hi
    rw [hx, hy, seeded_seed_x u i hi, seeded_seed_y u i hi]
    exact ⟨rfl, rfl⟩
  · intro i hi
    have hh : seed_hit (seeded u).seed_x (seeded u).seed_y 16 ((seeded u).seed_x i)
        ((seeded u).seed_y i) = true := (seed_hit_iff _ _ _ _ _).2 ⟨i, hi, rfl, rfl⟩
    unfold alive
    rw [hs, hx, hy, hg, seeded_states, if_pos ⟨rfl, hh⟩]
    decide
  · intro x y g hn
    rw [hs, seeded_states, if_neg]
    intro hc
    apply hn
    refine ⟨hc.1, ?_⟩
    rw [hx, hy]
    exact (seed_hit_iff _ _ _ _ _).1 hc.2

/-- C13: `arc_turn(0, dir)` changes at most `live_max`, `arc_turn(1, dir)` at
most `birth_min`, `arc_turn(2, dir)` at most `birth_max` (everything else but the
record of hardware calls is as before: cells, `gen`, `wave_repeat`, `live_min`,
counters, seed arrays, draws); `arc_turn(3, dir)` leaves the four thresholds, `gen`
and the counters `cv_update_count` and `wave_count` unchanged, draws 32 random
numbers, stores the walk they define in the seed arrays and marks its 16
points alive in buffer `gen`, leaving every other cell unchanged, whatever
`wave_repeat` is; `arc_turn(enc, dir)` with `enc >= 4` changes nothing but the
record of hardware calls. -/
theorem arc_turn_binding (s : State) (enc dir : Nat) :
    frame (arc_turn s 0 dir) = frame { s with live_max := (arc_turn s 0 dir).live_max } ∧
    frame (arc_turn s 1 dir) = frame { s with birth_min := (arc_turn s 1 dir).birth_min } ∧
    frame (arc_turn s 2 dir) = frame { s with birth_max := (arc_turn s 2 dir).birth_max } ∧
    ((arc_turn s 3 dir).live_min = s.live_min ∧ (arc_turn s 3 dir).live_max = s.live_max ∧
      (arc_turn s 3 dir).birth_min = s.birth_min ∧ (arc_turn s 3 dir).birth_max = s.birth_max ∧
      (arc_turn s 3 dir).cv_update_count = s.cv_update_count ∧
      (arc_turn s 3 dir).wave_count = s.wave_count ∧
      (arc_turn s 3 dir).gen = s.gen ∧ (arc_turn s 3 dir).drawn = s.drawn + 32 ∧
      (∀ i, i < 16 → (arc_turn s 3 dir).seed_x i = (walk s.env.rand s.drawn i).1 ∧
        (arc_turn s 3 dir).seed_y i = (walk s.env.rand s.drawn i).2) ∧
      (∀ i, i < 16 → alive (arc_turn s 3 dir) ((arc_turn s 3 dir).seed_x i)
        ((arc_turn s 3 dir).seed_y i) (arc_turn s 3 dir).gen = true) ∧
      (∀ x y g, ¬ (g = s.gen ∧ ∃ i, i < 16 ∧ x = (arc_turn s 3 dir).seed_x i ∧
          y = (arc_turn s 3 dir).seed_y i) →
        (arc_turn s 3 dir).states x y g = s.states x y g)) ∧
    (4 ≤ enc → frame (arc_turn s enc dir) = frame s) := by
  refine ⟨?_, ?_, ?_, ?_, (arc_turn_frame s enc dir).2.2.2.2⟩
  · obtain ⟨v, hv⟩ := (arc_turn_frame s 0 dir).1 rfl
    have e : (arc_turn s 0 dir).live_max = v := (frame_fields hv).2.1
    rw [e]
    exact hv
  · obtain ⟨v, hv⟩ := (arc_turn_frame s 1 dir).2.1 rfl
    have e : (arc_turn s 1 dir).birth_min = v := (frame_fields hv).2.2.1
    rw [e]
    exact hv
  · obtain ⟨v, hv⟩ := (arc_turn_frame s 2 dir).2.2.1 rfl
    have e : (arc_turn s 2 dir).birth_max = v := (frame_fields hv).2.2.2.1
    rw [e]
    exact hv
  · obtain ⟨v, hv⟩ := (arc_turn_frame s 3 dir).2.2.2.1 rfl
    have f := frame_fields hv
    obtain ⟨p1, p2, p3, p4, p5⟩ := seeded_frame_props _ _ hv
    exact ⟨f.1, f.2.1, f.2.2.1, f.2.2.2.1, f.2.2.2.2.2.2.2.1, f.2.2.2.2.2.2.2.2.2.1, p1, p2, p3,
      p4, p5⟩

/-! ## The ring-3 indicator -/

/-- A ring LED shows a level other than 0 only if a call set it. -/
theorem mem_of_arc_led (out : List HwCall) (r p l : Int) (h : arc_led out r p = l)
    (hl : l ≠ 0) : HwCall.set_arc_led r p l ∈ out := by
  induction out with
  | nil => exact absurd h.symm hl
  | cons c rest ih =>
    cases c with
    | clear_all_arc_leds => exact absurd h.symm hl
    | set_arc_led r' p' l' =>
      simp only [arc_led] at h
      by_cases hm : r' = r ∧ p' = p
      · rw [if_pos hm] at h
        rw [hm.1, hm.2, h]
        exact List.mem_cons_self _ _
      · rw [if_neg hm] at h
        exact List.mem_cons_of_mem _ (ih h)
    | clear_all_grid_leds => exact List.mem_cons_of_mem _ (ih h)
    | set_grid_led _ _ _ => exact List.mem_cons_of_mem _ (ih h)
    | refresh_grid => exact List.mem_cons_of_mem _ (ih h)
    | refresh_arc => exact List.mem_cons_of_mem _ (ih h)
    | set_cv _ _ => exact List.mem_cons_of_mem _ (ih h)

/-- The LEDs of ring 3 at the indicator level after `visualize()`: the guard
is `birth_max`, the range is that of `wave_repeat`. -/
theorem arc_led_ring3 (s : State) (p : Int) :
    arc_led (visualize s).out 3 p = 15 ↔
      s.birth_max ≠ 0 ∧ ((s.wave_repeat : Int) - 1) * 2 ≤ p ∧ p < (s.wave_repeat : Int) * 2 := by
  have hf : frame (visualize_arc_cells (visualize_grid s)) = frame s := by
    rw [frame_visualize_arc_cells, frame_visualize_grid]
  have hc := arc_led_arc_cells (visualize_grid s)
  unfold visualize
  rw [arc_led_emit_refresh]
  generalize visualize_arc_cells (visualize_grid s) = t at hf hc
  have e0 := frame_fields hf
  rw [visualize_indicators_eq]
  simp only [arc_led_indicator, e0.2.1, e0.2.2.1, e0.2.2.2.1, e0.2.2.2.2.2.1]
  have h3 := hc 3 p
  have e64 : ((64 / MAX_WAVE_REPEAT : Nat) : Int) = 2 := by decide
  rw [e64]
  simp [h3]

set_option maxRecDepth 1000000 in
theorem turned_down_birth_max : (turned_down env0).birth_max = 3 := by
  decide!

set_option maxRecDepth 1000000 in
theorem no_birth_fields : (no_birth env0).birth_max = 0 ∧ (no_birth env0).wave_repeat = 32 := by
  decide!

/-- C14, the code at two reachable states.  After 32 decrements of encoder 3
`wave_repeat` is 0 and `birth_max` is 3: `visualize()` does not skip the ring-3
indicator but calls `set_arc_led(3, -2, 15)` and `set_arc_led(3, -1, 15)`, whose
positions are outside `[0, 64)`.  After three decrements of encoder 2
`birth_max` is 0 and `wave_repeat` is 32: `visualize()` sets no position of ring
3 to level 15, not even 62 and 63. -/
theorem ring3_indicator_guard :
    (Reachable env0 (turned_down env0) ∧ (turned_down env0).wave_repeat = 0 ∧
      HwCall.set_arc_led 3 (-2) 15 ∈ (visualize (turned_down env0)).out ∧
      HwCall.set_arc_led 3 (-1) 15 ∈ (visualize (turned_down env0)).out) ∧
    (Reachable env0 (no_birth env0) ∧ (no_birth env0).wave_repeat = 32 ∧
      arc_led (visualize (no_birth env0)).out 3 62 ≠ 15 ∧
      arc_led (visualize (no_birth env0)).out 3 63 ≠ 15) := by
  have hw := turned_down_timing.1
  have hb := turned_down_birth_max
  have key : ∀ p : Int, -2 ≤ p → p < 0 →
      HwCall.set_arc_led 3 p 15 ∈ (visualize (turned_down env0)).out := by
    intro p h1 h2
    apply mem_of_arc_led _ 3 p 15 _ (by decide)
    rw [arc_led_ring3, hw, hb]
    refine ⟨by decide, ?_, ?_⟩
    · simp only [Nat.cast_zero]
      omega
    · simp only [Nat.cast_zero]
      omega
  have none3 : ∀ p : Int, arc_led (visualize (no_birth env0)).out 3 p ≠ 15 := by
    intro p h
    rw [arc_led_ring3, no_birth_fields.1] at h
    exact h.1 rfl
  exact ⟨⟨reachable_turned _ _, hw, key (-2) (by decide) (by decide),
    key (-1) (by decide) (by decide)⟩,
    ⟨reachable_turned _ _, no_birth_fields.2, none3 62, none3 63⟩⟩

/-! ## The cell pass over the rings -/

theorem forUpTo_eq_foldl {σ : Type} (body : Nat → σ → σ) (n : Nat) (s : σ) :
    forUpTo n body s = (List.range n).foldl (fun u i => body i u) s := by
  induction n with
  | zero => rfl
  | succ n ih =>
    rw [forUpTo_succ, ih, List.range_succ n, List.foldl_append]
    rfl

theorem foldl_product {σ α β : Type} (f : σ → α × β → σ) (l1 : List α) (l2 : List β) (s : σ) :
    (List.product l1 l2).foldl f s =
      l1.foldl (fun u a => l2.foldl (fun u b => f u (a, b)) u) s := by
  induction l1 generalizing s with
  | nil => rfl
  | cons a l1 ih =>
    have e : (a :: l1).product l2 = l2.map (fun b => (a, b)) ++ l1.product l2 :=
      List.product_cons a l1 l2
    rw [e, List.foldl_append, List.foldl_map, ih, List.foldl_cons]

/-- The two nested loops visit the cells in the order of `all_cells`. -/
theorem forUpTo_cells {σ : Type} (body : Nat → Nat → σ → σ) (s : σ) :
    forUpTo 16 (fun x s => forUpTo 16 (fun y s => body x y s) s) s =
      all_cells.foldl (fun u c => body c.1 c.2 u) s := by
  unfold all_cells
  rw [foldl_product, forUpTo_eq_foldl]
  have e : (fun (u : σ) (i : Nat) => forUpTo 16 (fun y s => body i y s) u) =
      (fun (u : σ) (a : Nat) => (List.range 16).foldl (fun u b => body a b u) u) := by
    funext u x
    rw [forUpTo_eq_foldl]
  rw [e]

theorem arc_cells_fold (cells : List (Nat × Nat)) (u : State) :
    (cells.foldl (fun u c => visualize_arc_cell c.1 c.2 u) u).out =
      (cells.map (ring_call u.states u.gen)).reverse ++ u.out := by
  induction cells generalizing u with
  | nil => rfl
  | cons c cs ih =>
    rw [List.foldl_cons, ih, List.map_cons, List.reverse_cons, List.append_assoc]
    rfl

theorem last_match_congr {α : Type} (p q : α → Bool) (l : List α)
    (h : ∀ c, c ∈ l → p c = q c) : last_match p l = last_match q l := by
  induction l with
  | nil => rfl
  | cons c cs ih =>
    simp only [last_match]
    rw [ih (fun d hd => h d (List.mem_cons_of_mem _ hd)), h c (List.mem_cons_self _ _)]

/-- The level of a ring LED after a sequence of cell calls: that of the last
call addressed to it, or what it was before. -/
theorem arc_led_ring_calls (st : Nat → Nat → Nat → Nat) (g : Nat) (cells : List (Nat × Nat))
    (base : List HwCall) (r p : Int) :
    arc_led ((cells.map (ring_call st g)).reverse ++ base) r p =
      match last_match (fun c => decide
          (((((c.1 * c.2) % 65536) >>> 6 : Nat) : Int) = r ∧
            ((((c.1 * c.2) % 65536) &&& 0b111111 : Nat) : Int) = p)) cells with
      | some c => if st c.1 c.2 g ≠ 0 then 4 else 0
      | none => arc_led base r p := by
  induction cells generalizing base with
  | nil => rfl
  | cons c cs ih =>
    rw [List.map_cons, List.reverse_cons, List.append_assoc, ih]
    simp only [last_match]
    cases hl : last_match (fun c => decide
          (((((c.1 * c.2) % 65536) >>> 6 : Nat) : Int) = r ∧
            ((((c.1 * c.2) % 65536) &&& 0b111111 : Nat) : Int) = p)) cs with
    | some d => rfl
    | none =>
      simp only [List.singleton_append, ring_call, arc_led]
      by_cases hm : ((((c.1 * c.2) % 65536) >>> 6 : Nat) : Int) = r ∧
            ((((c.1 * c.2) % 65536) &&& 0b111111 : Nat) : Int) = p
      · simp only [hm, and_self, if_true, decide_True]
      · simp only [hm, if_false, decide_False]
        rfl

theorem last_match_none {α : Type} (p : α → Bool) (l : List α) :
    last_match p l = none ↔ ∀ d, d ∈ l → p d = false := by
  induction l with
  | nil => simp [last_match]
  | cons c cs ih =>
    simp only [last_match, List.mem_cons, forall_eq_or_imp]
    cases hl : last_match p cs with
    | some d =>
      constructor
      · intro h
        exact Option.noConfusion h
      · intro h
        rw [ih.2 h.2] at hl
        exact Option.noConfusion hl
    | none =>
      have hcs := ih.1 hl
      by_cases hc : p c = true
      · simp [hc]
      · have hf : p c = false := by simpa using hc
        simp only [hf, Bool.false_eq_true, if_false, true_and, true_iff]
        exact hcs

/-- The element that `last_match` returns satisfies `p`, and no element after
it in the list does. -/
theorem last_match_some {α : Type} (p : α → Bool) (l : List α) (c : α)
    (h : last_match p l = some c) :
    p c = true ∧ ∃ l1 l2, l = l1 ++ c :: l2 ∧ ∀ d, d ∈ l2 → p d = false := by
  induction l with
  | nil => exact Option.noConfusion h
  | cons a cs ih =>
    simp only [last_match] at h
    cases hl : last_match p cs with
    | some d =>
      rw [hl] at h
      simp only [Option.some.injEq] at h
      subst h
      obtain ⟨h1, l1, l2, e, h2⟩ := ih hl
      exact ⟨h1, a :: l1, l2, by rw [e]; rfl, h2⟩
    | none =>
      rw [hl] at h
      by_cases ha : p a = true
      · rw [if_pos ha] at h
        simp only [Option.some.injEq] at h
        subst h
        exact ⟨ha, [], cs, rfl, (last_match_none p cs).1 hl⟩
      · rw [if_neg ha] at h
        exact Option.noConfusion h

theorem ring_index_bits (i : Nat) : i >>> 6 = i / 64 ∧ i &&& 0b111111 = i % 64 :=
  ⟨Nat.shiftRight_eq_div_pow i 6, Nat.and_pow_two_sub_one_eq_mod i 6⟩

/-- The level of a ring LED after the cell pass of `visualize()`: that
written for the last cell whose product addresses it. -/
theorem arc_led_cell_pass (t : State) (r p : Nat) (hp : p < 64) :
    arc_led (visualize_arc_cells t).out r p =
      match ring_cell (64 * r + p) with
      | some c => if t.states c.1 c.2 t.gen ≠ 0 then 4 else 0
      | none => 0 := by
  unfold visualize_arc_cells
  simp only []
  rw [forUpTo_cells (fun x y s => visualize_arc_cell x y s), arc_cells_fold,
    arc_led_ring_calls]
  have hcong : last_match (fun c : Nat × Nat => decide
          (((((c.1 * c.2) % 65536) >>> 6 : Nat) : Int) = (r : Int) ∧
            ((((c.1 * c.2) % 65536) &&& 0b111111 : Nat) : Int) = (p : Int))) all_cells =
      ring_cell (64 * r + p) := by
    unfold ring_cell
    apply last_match_congr
    intro c hc
    rw [mem_all_cells] at hc
    have hlt : c.1 * c.2 < 256 := by
      have := Nat.mul_le_mul (Nat.le_of_lt_succ hc.1) (Nat.le_of_lt_succ hc.2)
      omega
    have hm : (c.1 * c.2) % 65536 = c.1 * c.2 := Nat.mod_eq_of_lt (by omega)
    obtain ⟨b1, b2⟩ := ring_index_bits (c.1 * c.2)
    rw [hm, b1, b2]
    generalize c.1 * c.2 = n
    simp only [Nat.cast_inj, decide_eq_decide]
    omega
  rw [hcong]
  generalize ring_cell (64 * r + p) = o
  cases o with
  | none => rfl
  | some c => rfl

/-- C15 (amended): after the cell pass of `visualize()`, for every ring `r` in
0..3 and position `p` in 0..63, the ring LED `(r, p)` is at the cell level 4
iff the last cell `(x, y)` in loop order (`x` outer, `y` inner, ascending) with
`x, y < 16` and `x * y = 64 * r + p` is alive in the active buffer, and it is
off (level 0) otherwise: every cell writes its LED, a dead cell writes 0. -/
theorem ring_cell_mapping (s : State) (r p : Nat) (_hr : r < 4) (hp : p < 64) :
    (arc_led (visualize_arc_cells (visualize_grid s)).out r p = 4 ↔
      ∃ c, ring_cell (64 * r + p) = some c ∧ alive s c.1 c.2 s.gen = true) ∧
    (arc_led (visualize_arc_cells (visualize_grid s)).out r p ≠ 4 →
      arc_led (visualize_arc_cells (visualize_grid s)).out r p = 0) := by
  have f := frame_fields (frame_visualize_grid s)
  rw [arc_led_cell_pass _ r p hp, f.2.2.2.2.2.2.1, f.2.2.2.2.2.2.2.2.2.2.1]
  cases hc : ring_cell (64 * r + p) with
  | none => simp
  | some c =>
    simp only [alive, Option.some.injEq, exists_eq_left', decide_eq_true_eq]
    by_cases ha : s.states c.1 c.2 s.gen ≠ 0
    · simp [ha]
    · simp [ha]

set_option maxRecDepth 1000000 in
theorem ring_cell_zero : ring_cell (64 * 0 + 0) = some (15, 0) := by
  decide!

/-- C15 as stated fails: with only cell `(0, 0)` alive, whose product is
`0 = 64 * 0 + 0`, LED 0 of ring 0 is off after the cell pass, because the dead
cells `(0, 1)`, ..., `(15, 0)` with the same product write 0 after it. -/
theorem ring_cell_overwritten :
    alive (lonely env0) 0 0 (lonely env0).gen = true ∧ 0 * 0 = 64 * 0 + 0 ∧
    arc_led (visualize_arc_cells (visualize_grid (lonely env0))).out 0 0 = 0 := by
  refine ⟨by decide, by decide, ?_⟩
  generalize hl : lonely env0 = u
  have hu : u.states 15 0 u.gen = 0 := by rw [← hl]; decide
  have f := frame_fields (frame_visualize_grid u)
  have h := arc_led_cell_pass (visualize_grid u) 0 0 (by decide)
  rw [ring_cell_zero, f.2.2.2.2.2.2.1, f.2.2.2.2.2.2.2.2.2.2.1] at h
  simp only [hu, ne_eq, not_true_eq_false, if_false] at h
  exact h

/-- An instance of C15 (amended): LED 0 of ring 0 follows cell `(15, 0)`. -/
theorem ring_cell_mapping_witness :
    (arc_led (visualize_arc_cells (visualize_grid (lonely env0))).out (0 : Nat) (0 : Nat) = 4 ↔
      ∃ c, ring_cell (64 * 0 + 0) = some c ∧
        alive (lonely env0) c.1 c.2 (lonely env0).gen = true) :=
  (ring_cell_mapping (lonely env0) 0 0 (by decide) (by decide)).1

/-! ## The gate of the advance path -/

theorem update_cv_out (t : State) :
    (update_cv t).out =
      .set_cv 0 (((t.env.MAX_LEVEL / MAXX) *
        row_sum t.states (next_row t.cv_update_count) t.gen MAXX : Nat) : Int) :: t.out ∧
    (update_cv t).env = t.env ∧ (update_cv t).seed_x = t.seed_x ∧
    (update_cv t).seed_y = t.seed_y := by
  rw [update_cv_eq]
  exact ⟨rfl, rfl, rfl, rfl⟩

/-- The level that a tick sends is computed from the buffer, the row and
`gen` that the state has after the tick. -/
theorem play_level (s : State) (hi : Inv s) :
    ∃ rest, (play s).out =
      .set_cv 0 (((s.env.MAX_LEVEL / 16) *
        row_live (play s) (play s).cv_update_count (play s).gen : Nat) : Int) :: rest := by
  have hp := inv_play s hi
  have key : ∀ X : State, X.env = s.env → Inv (update_cv X) →
      ∃ rest, (update_cv X).out =
        .set_cv 0 (((s.env.MAX_LEVEL / 16) *
          row_live (update_cv X) (update_cv X).cv_update_count (update_cv X).gen : Nat) : Int)
          :: rest := by
    intro X he hX
    obtain ⟨u1, _, _, u4, u5⟩ := update_cv_fields X
    obtain ⟨o1, _, _, _⟩ := update_cv_out X
    refine ⟨X.out, ?_⟩
    have hsum := row_sum_eq_countP (update_cv X) (update_cv X).cv_update_count (update_cv X).gen
      (fun x _ => hX.cells_le x _ _) 16 (Nat.le_refl _)
    rw [u5] at hsum
    rw [o1, he]
    unfold row_live
    rw [← hsum, u1, u4]
    rfl
  by_cases h : play_advances s
  · rw [play_of_advances s h] at hp ⊢
    have hc := controls_next_gen { s with wave_count := (s.wave_count + 1) % 256 }
    simp only [controls, Prod.mk.injEq] at hc
    have henv : (next_gen { s with wave_count := (s.wave_count + 1) % 256 }).env = s.env :=
      hc.2.2.2.2.2.2.2.2
    generalize next_gen { s with wave_count := (s.wave_count + 1) % 256 } = n at hp henv ⊢
    exact key { n with wave_count := 0 } henv hp
  · rw [play_of_not_advances s h] at hp ⊢
    apply key _ _ hp
    split <;> rfl

/-- The grid and `gen` after a tick. -/
theorem play_grid (s : State) :
    (play_advances s →
      (play s).states = (next_gen { s with wave_count := (s.wave_count + 1) % 256 }).states ∧
      (play s).gen = other s.gen) ∧
    (¬ play_advances s → (play s).states = s.states ∧ (play s).gen = s.gen) := by
  constructor
  · intro h
    rw [play_of_advances s h]
    obtain ⟨_, _, _, u4, u5⟩ := update_cv_fields
      { next_gen { s with wave_count := (s.wave_count + 1) % 256 } with wave_count := 0 }
    rw [u4, u5]
    have hg := next_gen_gen { s with wave_count := (s.wave_count + 1) % 256 }
    generalize next_gen { s with wave_count := (s.wave_count + 1) % 256 } = n at hg ⊢
    exact ⟨rfl, hg⟩
  · intro h
    rw [play_of_not_advances s h]
    obtain ⟨_, _, _, u4, u5⟩ := update_cv_fields
      (if s.cv_update_count = 0 then { s with wave_count := (s.wave_count + 1) % 256 } else s)
    rw [u4, u5]
    split <;> exact ⟨rfl, rfl⟩

/-- C16 (amended): in a reachable state, `play()` runs the advance path
(incrementing `wave_count`, and calling `next_gen()` and resetting `wave_count`
when it has reached `wave_repeat`) only on ticks that find `cv_update_count = 0`
before the increment of `update_cv()`, so that the counter is 1 after such a
tick; on every other tick `wave_count`, the grid and `gen` are unchanged; and
on every tick the level sent to `set_cv` is computed from the buffer that is
active after the advance decision, at the row selected after the increment. -/
theorem advance_gate (e : Env) (s : State) (hs : Reachable e s) :
    (s.cv_update_count ≠ 0 →
      (play s).wave_count = s.wave_count ∧ (play s).states = s.states ∧
        (play s).gen = s.gen) ∧
    (s.cv_update_count = 0 →
      (play s).cv_update_count = 1 ∧
      (play s).wave_count =
        (if (s.wave_count + 1) % 256 ≥ s.wave_repeat then 0 else (s.wave_count + 1) % 256) ∧
      ((s.wave_count + 1) % 256 ≥ s.wave_repeat →
        (play s).states =
          (next_gen { s with wave_count := (s.wave_count + 1) % 256 }).states ∧
        (play s).gen = 1 - s.gen) ∧
      (¬ (s.wave_count + 1) % 256 ≥ s.wave_repeat →
        (play s).states = s.states ∧ (play s).gen = s.gen)) ∧
    (∃ rest, (play s).out =
      .set_cv 0 (((s.env.MAX_LEVEL / 16) *
        row_live (play s) (play s).cv_update_count (play s).gen : Nat) : Int) :: rest) := by
  have hi := inv_of_reachable e s hs
  obtain ⟨t1, _, t3⟩ := play_timing s
  obtain ⟨g1, g2⟩ := play_grid s
  refine ⟨?_, ?_, play_level s hi⟩
  · intro h0
    obtain ⟨a, b⟩ := g2 (fun h => h0 h.1)
    rw [t3, if_neg h0]
    exact ⟨rfl, a, b⟩
  · intro h0
    refine ⟨?_, ?_, ?_, ?_⟩
    · rw [t1, h0]
      decide
    · rw [t3, if_pos h0]
    · intro hw
      obtain ⟨a, b⟩ := g1 ⟨h0, hw⟩
      refine ⟨a, ?_⟩
      rw [b]
      have hg := hi.gen_lt
      unfold other
      split <;> omega
    · intro hw
      exact g2 (fun h => hw h.2)

/-- C16 as stated fails: at start-up the row counter is 0; the first tick
runs the advance path (`wave_count` goes from 0 to 1) although the counter is
1, not 0, after that tick's increment. -/
theorem advance_gate_before_increment :
    (init env0).wave_count = 0 ∧ (play (init env0)).wave_count = 1 ∧
    (play (init env0)).cv_update_count = 1 := by
  obtain ⟨t1, _, t3⟩ := play_timing (init env0)
  rw [t1, t3]
  decide

/-- An instance of C16 (amended) at start-up. -/
theorem advance_gate_witness :
    (play (init env0)).cv_update_count = 1 ∧
    ∃ rest, (play (init env0)).out =
      .set_cv 0 ((((init env0).env.MAX_LEVEL / 16) *
        row_live (play (init env0)) (play (init env0)).cv_update_count
          (play (init env0)).gen : Nat) : Int) :: rest :=
  have h := advance_gate env0 (init env0) Reachable.start
  ⟨(h.2.1 rfl).1, h.2.2⟩

/-! ## Key coordinates -/

/-- C17 (amended): for `x, y < 16` (and `gen` in {0, 1}), `grid_press(x, y,
pressed)` with `pressed != 0` is defined and sets cell `(x, y)` of the active
buffer alive; the coordinates are used as received, not reduced modulo the
grid dimensions, so for `x >= 16` or `y >= 16` the index is outside
`states[16][16][2]` and the call has no defined result. -/
theorem grid_press_coordinates (s : State) (x y pressed : Nat) (hp : pressed ≠ 0)
    (hg : s.gen < 2) :
    (x < 16 → y < 16 →
      ∃ t, grid_press s x y pressed = some t ∧ alive t x y t.gen = true) ∧
    ((16 ≤ x ∨ 16 ≤ y) → grid_press s x y pressed = none) := by
  constructor
  · intro hx hy
    refine ⟨_, grid_press_some s x y pressed hx hy hg, ?_⟩
    rw [if_pos hp]
    generalize hu : ({ s with states := write3 s.states x y s.gen 1 } : State) = u
    have hus : u.states = write3 s.states x y s.gen 1 := by rw [← hu]
    have hug : u.gen = s.gen := by rw [← hu]
    unfold alive
    rw [visualize_states, visualize_gen, hus, hug]
    simp only [write3, and_self, if_true]
    decide
  · intro h
    unfold grid_press
    rw [if_pos hp, if_neg]
    unfold MAXX MAXY
    omega

/-- C17 as stated fails: a key with `x = 16` indexes `states[16][0][gen]`,
outside the array; the call has no defined result and does not set cell
`(16 mod 16, 0)`. -/
theorem grid_press_out_of_range : grid_press (init env0) 16 0 1 = none := by
  unfold grid_press
  rw [if_pos (by decide), if_neg (by decide)]

/-- An instance of C17 (amended): key `(15, 15)` at start-up, and key
`(16, 0)`. -/
theorem grid_press_coordinates_witness :
    (∃ t, grid_press (init env0) 15 15 1 = some t ∧ alive t 15 15 t.gen = true) ∧
    grid_press (init env0) 16 0 1 = none :=
  ⟨(grid_press_coordinates (init env0) 15 15 1 (by decide) (by decide)).1 (by decide)
      (by decide),
    (grid_press_coordinates (init env0) 16 0 1 (by decide) (by decide)).2
      (Or.inl (by decide))⟩

/-! ## Never extinct after an advance -/

/-- C18: after `next_gen()` the active buffer has at least one live cell;
when the computed generation is empty (count 0) it has at least 2 and at most
16 live cells, each of them a seed point. -/
theorem never_extinct (s : State) (_hg : s.gen < 2) :
    1 ≤ live_count (next_gen s) (next_gen s).gen ∧
    ((next_gen_loop s).2 = 0 →
      2 ≤ live_count (next_gen s) (next_gen s).gen ∧
      live_count (next_gen s) (next_gen s).gen ≤ 16 ∧
      ∀ x y, x < 16 → y < 16 → alive (next_gen s) x y (next_gen s).gen = true →
        ∃ i, i < 16 ∧ x = (next_gen s).seed_x i ∧ y = (next_gen s).seed_y i) := by
  have hzero : rule_count s = 0 →
      2 ≤ live_count (next_gen s) (next_gen s).gen ∧
      live_count (next_gen s) (next_gen s).gen ≤ 16 ∧
      ∀ x y, x < 16 → y < 16 → alive (next_gen s) x y (next_gen s).gen = true →
        ∃ i, i < 16 ∧ x = (next_gen s).seed_x i ∧ y = (next_gen s).seed_y i := by
    intro hc
    obtain ⟨a1, a2⟩ := seed_points_lt_of_zero s hc 0 (by decide)
    obtain ⟨b1, b2⟩ := seed_points_lt_of_zero s hc 1 (by decide)
    refine ⟨?_, ?_, fun x y hx hy => (alive_next_gen_of_zero s hc x y hx hy).1⟩
    · exact live_count_two _ _ _ _ _ _ (seed_points_ne_of_zero s hc) a1 a2 b1 b2
        ((alive_next_gen_of_zero s hc _ _ a1 a2).2 ⟨0, by decide, rfl, rfl⟩)
        ((alive_next_gen_of_zero s hc _ _ b1 b2).2 ⟨1, by decide, rfl, rfl⟩)
    · have := live_count_le (next_gen s) (next_gen s).gen
        ((List.range 16).map (fun i => ((next_gen s).seed_x i, (next_gen s).seed_y i)))
        (by
          intro x y hx hy ha
          obtain ⟨i, hi, e1, e2⟩ := (alive_next_gen_of_zero s hc x y hx hy).1 ha
          rw [List.mem_map]
          exact ⟨i, List.mem_range.2 hi, by rw [e1, e2]⟩)
      simpa using this
  refine ⟨?_, fun h => hzero (by rw [← next_gen_count_eq]; exact h)⟩
  by_cases hc : rule_count s = 0
  · have := (hzero hc).1
    omega
  · have hex : ∃ x y, x < 16 ∧ y < 16 ∧ rule s x y = true := by
      by_contra hne
      apply hc
      rw [rule_count_eq_zero]
      intro x y hx hy
      by_contra hr
      exact hne ⟨x, y, hx, hy, by simpa using hr⟩
    obtain ⟨x, y, hx, hy, hr⟩ := hex
    obtain ⟨_, _, _, _, _, hg, hs⟩ := next_gen_of_count s hc
    apply live_count_pos _ _ x y hx hy
    unfold alive
    rw [hg, hs]
    simp only [next_states, hx, hy, hr, true_and, if_true]
    decide

/-- An instance of C18 on the empty start-up grid, where the seeder runs. -/
theorem never_extinct_witness :
    1 ≤ live_count (next_gen (init env0)) (next_gen (init env0)).gen :=
  (never_extinct (init env0) (by decide)).1

/-! ## Translation equivariance -/

theorem countP_product {α β : Type} (p : α × β → Bool) (l1 : List α) (l2 : List β) :
    (List.product l1 l2).countP p = (l1.map (fun a => l2.countP (fun b => p (a, b)))).sum := by
  induction l1 with
  | nil => rfl
  | cons a l1 ih =>
    have e : (a :: l1).product l2 = l2.map (fun b => (a, b)) ++ l1.product l2 :=
      List.product_cons a l1 l2
    rw [e, List.countP_append, List.countP_map, ih, List.map_cons, List.sum_cons]
    rfl

theorem rule_count_eq_countP (s : State) :
    rule_count s = all_cells.countP (fun c => rule s c.1 c.2) := by
  unfold rule_count all_cells
  rw [countP_product]

theorem perm_shift_cells (dx dy : Nat) (hdx : dx < 16) (hdy : dy < 16) :
    (all_cells.map (shift_cell dx dy)).Perm all_cells := by
  apply (List.perm_ext_iff_of_nodup _ nodup_all_cells).2
  · intro c
    rw [List.mem_map, mem_all_cells]
    constructor
    · rintro ⟨d, _, rfl⟩
      exact ⟨Nat.mod_lt _ (by decide), Nat.mod_lt _ (by decide)⟩
    · intro hc
      refine ⟨((c.1 + dx) % 16, (c.2 + dy) % 16),
        (mem_all_cells _).2 ⟨Nat.mod_lt _ (by decide), Nat.mod_lt _ (by decide)⟩, ?_⟩
      obtain ⟨a, b⟩ := c
      simp only [shift_cell, Prod.mk.injEq]
      simp only at hc
      omega
  · apply List.Nodup.map_on _ nodup_all_cells
    intro c hc d hd h
    rw [mem_all_cells] at hc hd
    obtain ⟨a, b⟩ := c
    obtain ⟨a', b'⟩ := d
    simp only [shift_cell, Prod.mk.injEq] at h ⊢
    simp only at hc hd
    omega

/-- Counting over the grid is invariant under moving the grid. -/
theorem countP_shift (P : Nat × Nat → Bool) (dx dy : Nat) (hdx : dx < 16) (hdy : dy < 16) :
    all_cells.countP (fun c => P (shift_cell dx dy c)) = all_cells.countP P := by
  have h := (perm_shift_cells dx dy hdx hdy).countP_eq P
  rw [List.countP_map] at h
  exact h

/-- Equal thresholds and a moved grid give the moved rule. -/
theorem rule_of_shift (s t : State) (dx dy : Nat) (hdx : dx < 16) (hdy : dy < 16)
    (hp : t.live_min = s.live_min ∧ t.live_max = s.live_max ∧ t.birth_min = s.birth_min ∧
      t.birth_max = s.birth_max)
    (hshift : ∀ x y, x < 16 → y < 16 → grid_of t x y = shift_grid (grid_of s) dx dy x y)
    (x y : Nat) (hx : x < 16) (hy : y < 16) :
    rule t x y = rule s ((x + 16 - dx) % 16) ((y + 16 - dy) % 16) := by
  obtain ⟨p1, p2, p3, p4⟩ := hp
  rw [rule_eq_life_rule, rule_eq_life_rule, p1, p2, p3, p4,
    life_rule_congr _ _ _ _ (grid_of t) (shift_grid (grid_of s) dx dy) hshift x y hx hy,
    life_rule_shift _ _ _ _ _ _ _ _ _ hdx hdy]

/-- C19: if two states have the same thresholds and the active buffer of `t`
is that of `s` moved by `(dx, dy)` on the torus, `dx, dy < 16`, and the
generation computed from `s` is not empty (count not 0), then `next_gen()`
computes the same count from `t`, the active buffer after `next_gen()` on `t` is
the active buffer after `next_gen()` on `s` moved by `(dx, dy)` (as a grid of
live and dead cells, and in the stored values), and both have the same
number of live cells. -/
theorem next_gen_equivariant (s t : State) (dx dy : Nat) (hdx : dx < 16) (hdy : dy < 16)
    (hp : t.live_min = s.live_min ∧ t.live_max = s.live_max ∧ t.birth_min = s.birth_min ∧
      t.birth_max = s.birth_max)
    (hshift : ∀ x y, x < 16 → y < 16 → grid_of t x y = shift_grid (grid_of s) dx dy x y)
    (hc : (next_gen_loop s).2 ≠ 0) :
    (next_gen_loop t).2 = (next_gen_loop s).2 ∧
    (∀ x y, x < 16 → y < 16 →
      grid_of (next_gen t) x y = shift_grid (grid_of (next_gen s)) dx dy x y) ∧
    (∀ x y, x < 16 → y < 16 →
      (next_gen t).states x y (next_gen t).gen =
        (next_gen s).states ((x + 16 - dx) % 16) ((y + 16 - dy) % 16) (next_gen s).gen) ∧
    live_count (next_gen t) (next_gen t).gen = live_count (next_gen s) (next_gen s).gen := by
  have hr := rule_of_shift s t dx dy hdx hdy hp hshift
  rw [next_gen_count_eq] at hc
  have hcount : rule_count t = rule_count s := by
    rw [rule_count_eq_countP, rule_count_eq_countP,
      ← countP_shift (fun c => rule s c.1 c.2) dx dy hdx hdy]
    apply List.countP_congr
    intro c hcm
    rw [mem_all_cells] at hcm
    rw [hr c.1 c.2 hcm.1 hcm.2]
    rfl
  have hct : rule_count t ≠ 0 := by rw [hcount]; exact hc
  have hgrid : ∀ x y, x < 16 → y < 16 →
      grid_of (next_gen t) x y = shift_grid (grid_of (next_gen s)) dx dy x y := by
    intro x y hx hy
    have e1 := grid_of_next_gen t hct x y hx hy
    have e2 := grid_of_next_gen s hc ((x + 16 - dx) % 16) ((y + 16 - dy) % 16)
      (Nat.mod_lt _ (by decide)) (Nat.mod_lt _ (by decide))
    rw [← rule_eq_life_rule] at e1 e2
    rw [e1, hr x y hx hy, ← e2]
    rfl
  refine ⟨by rw [next_gen_count_eq, next_gen_count_eq, hcount], hgrid, ?_, ?_⟩
  · intro x y hx hy
    obtain ⟨_, _, _, _, _, g1, s1⟩ := next_gen_of_count t hct
    obtain ⟨_, _, _, _, _, g2, s2⟩ := next_gen_of_count s hc
    have m1 : (x + 16 - dx) % 16 < 16 := Nat.mod_lt _ (by decide)
    have m2 : (y + 16 - dy) % 16 < 16 := Nat.mod_lt _ (by decide)
    rw [g1, s1, g2, s2]
    simp only [next_states, hx, hy, m1, m2, true_and, if_true, hr x y hx hy]
  unfold live_count
  have h := countP_shift (fun c => grid_of (next_gen s) c.1 c.2) dx dy hdx hdy
  have e : all_cells.countP (fun c => alive (next_gen t) c.1 c.2 (next_gen t).gen) =
      all_cells.countP (fun c => grid_of (next_gen s) (shift_cell dx dy c).1
        (shift_cell dx dy c).2) := by
    apply List.countP_congr
    intro c hcm
    rw [mem_all_cells] at hcm
    have := hgrid c.1 c.2 hcm.1 hcm.2
    unfold grid_of at this
    rw [this]
    rfl
  rw [e, h]
  rfl

set_option maxRecDepth 1000000 in
theorem glider_moved_shift : ∀ x, x < 16 → ∀ y, y < 16 →
    grid_of (glider_moved env0) x y = shift_grid (grid_of (glider_state env0)) 1 2 x y := by
  decide!

set_option maxRecDepth 1000000 in
theorem glider_state_count : (next_gen_loop (glider_state env0)).2 ≠ 0 := by
  rw [next_gen_count_eq]
  decide!

/-- An instance of C19: the glider at `(3, 5)` and the same glider moved by
`(1, 2)`. -/
theorem next_gen_equivariant_witness :
    (next_gen_loop (glider_moved env0)).2 = (next_gen_loop (glider_state env0)).2 ∧
    grid_of (next_gen (glider_moved env0)) 5 8 =
      shift_grid (grid_of (next_gen (glider_state env0))) 1 2 5 8 ∧
    live_count (next_gen (glider_moved env0)) (next_gen (glider_moved env0)).gen =
      live_count (next_gen (glider_state env0)) (next_gen (glider_state env0)).gen :=
  have h := next_gen_equivariant (glider_state env0) (glider_moved env0) 1 2 (by decide)
    (by decide) (by decide) (fun x y hx hy => glider_moved_shift x hx y hy) glider_state_count
  ⟨h.1, h.2.1 5 8 (by decide) (by decide), h.2.2.2⟩

/-! ## Index safety -/

theorem seed_inv_of_frame {t u : State} (h : frame t = frame u) (hu : SeedInv u) :
    SeedInv t := by
  have f := frame_fields h
  intro i hi
  rw [f.2.2.2.2.2.2.2.2.2.2.2.1, f.2.2.2.2.2.2.2.2.2.2.2.2.1]
  exact hu i hi

theorem seed_inv_seeded (u : State) : SeedInv (seeded u) := by
  intro i hi
  rw [seeded_seed_x u i hi, seeded_seed_y u i hi]
  exact walk_lt _ _ _

theorem seed_inv_next_gen (s : State) (h : SeedInv s) : SeedInv (next_gen s) := by
  have hf : frame (next_gen s) =
      frame (if rule_count s = 0 then seeded (stepped s) else stepped s) := by
    rw [next_gen_eq, frame_visualize]
  apply seed_inv_of_frame hf
  split
  · exact seed_inv_seeded _
  · exact h

theorem seed_inv_update_cv (t : State) (h : SeedInv t) : SeedInv (update_cv t) := by
  obtain ⟨_, _, ex, ey⟩ := update_cv_out t
  intro i hi
  rw [ex, ey]
  exact h i hi

theorem seed_inv_play (s : State) (h : SeedInv s) : SeedInv (play s) := by
  by_cases ha : play_advances s
  · rw [play_of_advances s ha]
    apply seed_inv_update_cv
    have hn := seed_inv_next_gen { s with wave_count := (s.wave_count + 1) % 256 } h
    generalize next_gen { s with wave_count := (s.wave_count + 1) % 256 } = n at hn
    exact hn
  · rw [play_of_not_advances s ha]
    apply seed_inv_update_cv
    split
    · exact h
    · exact h

theorem seed_inv_grid_press (s t : State) (x y pressed : Nat) (h : SeedInv s)
    (ht : grid_press s x y pressed = some t) : SeedInv t := by
  unfold grid_press at ht
  split at ht
  · split at ht
    · simp only [Option.some.injEq] at ht
      subst ht
      exact seed_inv_of_frame (frame_visualize _) h
    · exact Option.noConfusion ht
  · simp only [Option.some.injEq] at ht
    subst ht
    exact seed_inv_of_frame (frame_visualize _) h

theorem seed_inv_arc_turn (s : State) (enc dir : Nat) (h : SeedInv s) :
    SeedInv (arc_turn s enc dir) := by
  obtain ⟨a0, a1, a2, a3, a4⟩ := arc_turn_frame s enc dir
  by_cases h0 : enc = 0
  · obtain ⟨v, hv⟩ := a0 h0
    exact seed_inv_of_frame hv h
  by_cases h1 : enc = 1
  · obtain ⟨v, hv⟩ := a1 h1
    exact seed_inv_of_frame hv h
  by_cases h2 : enc = 2
  · obtain ⟨v, hv⟩ := a2 h2
    exact seed_inv_of_frame hv h
  by_cases h3 : enc = 3
  · obtain ⟨v, hv⟩ := a3 h3
    exact seed_inv_of_frame hv (seed_inv_seeded _)
  · exact seed_inv_of_frame (a4 (by omega)) h

theorem seed_inv_of_reachable (e : Env) (s : State) (h : Reachable e s) : SeedInv s := by
  induction h with
  | start =>
    intro i _
    exact ⟨Nat.zero_lt_succ 15, Nat.zero_lt_succ 15⟩
  | step s t ev _ ht ih =>
    cases ev with
    | tick =>
      simp only [process_event, Option.some.injEq] at ht
      subst ht
      exact seed_inv_play s ih
    | key x y pressed => exact seed_inv_grid_press s t x y pressed ih ht
    | turn enc dir =>
      simp only [process_event, Option.some.injEq] at ht
      subst ht
      exact seed_inv_arc_turn s enc dir ih

/-- C20: in every state reachable from start-up by ticks, key presses with
a defined result and encoder turns, `gen` is 0 or 1, `cv_update_count < 16`,
`wave_count < 32` (so `++wave_count` does not wrap), the first 16 seed
coordinates are below 16 and every stored cell is 0 or 1; hence the indices
that the operations use next are in range: the row `update_cv()` reads, the
buffer `next_gen()` writes, and a key press with `x, y < 16` is defined. -/
theorem index_safety (e : Env) (s : State) (hs : Reachable e s) :
    (s.gen = 0 ∨ s.gen = 1) ∧ s.cv_update_count < 16 ∧ s.wave_count < 32 ∧
    (∀ i, i < 16 → s.seed_x i < 16 ∧ s.seed_y i < 16) ∧
    (∀ x y g, s.states x y g = 0 ∨ s.states x y g = 1) ∧
    ((s.wave_count + 1) % 256 = s.wave_count + 1 ∧ next_row s.cv_update_count < 16 ∧
      other s.gen < 2 ∧
      ∀ x y pressed, x < 16 → y < 16 → ∃ t, grid_press s x y pressed = some t) := by
  have hi := inv_of_reachable e s hs
  have hg := hi.gen_lt
  have hw := hi.wave_lt
  refine ⟨by omega, hi.cv_lt, hw, seed_inv_of_reachable e s hs, ?_, by omega, ?_, other_lt _,
    ?_⟩
  · intro x y g
    have := hi.cells_le x y g
    omega
  · rw [next_row_of_lt _ hi.cv_lt]
    exact Nat.mod_lt _ (by decide)
  · intro x y pressed hx hy
    exact ⟨_, grid_press_some s x y pressed hx hy hg⟩

/-- An instance of C20: the state after eight key presses. -/
theorem index_safety_witness :
    (half_row_pressed.gen = 0 ∨ half_row_pressed.gen = 1) ∧
    half_row_pressed.cv_update_count < 16 ∧ half_row_pressed.wave_count < 32 :=
  have h := index_safety env0 half_row_pressed reachable_half_row
  ⟨h.1, h.2.1, h.2.2.1⟩

end Lifebeat
